import Mathlib

/-!
# Scene graph and scene registry of the computational-graphics project

A shallow embedding of `src/Object3D.{h,cpp}`, `src/SceneManager.{h,cpp}` and
`src/ParticleSystem.{h,cpp}`.

* Scalars (`float` in the source) are idealised as elements of a field `R`
  with exact arithmetic; the transcendental library functions the source calls
  (`cos`, `sin`, `glm::radians`, `glm::inversesqrt`) are fields of `GlmOps`.
* `glm::mat4` is a `Matrix (Fin 4) (Fin 4) R`; entry `m i j` is row `i` of
  column `j`, so the glm column `m[j]` is `fun i => m i j`.
* `std::shared_ptr<Object3D>` is an `Option Ptr` (`none` is the null pointer),
  objects live in a `Heap`, and a `std::weak_ptr` is a `Ptr` that only locks
  while its target is in the heap.
* Recursion that follows pointers (`GetWorldMatrix`, `Render`) is bounded by a
  fuel argument; `none` means the fuel ran out or a dead pointer was read.
-/

namespace SceneGraph

/-! ## glm -/

/-- The glm vector `glm::vec3`. -/
structure Vec3 (R : Type) where
  x : R
  y : R
  z : R
deriving DecidableEq, Repr

/-- The glm matrix `glm::mat4`: entry `m i j` is row `i` of column `j`. -/
abbrev Mat4 (R : Type) := Matrix (Fin 4) (Fin 4) R

/-- The scalar library functions reached through glm. -/
structure GlmOps (R : Type) where
  cos : R → R
  sin : R → R
  radians : R → R
  inversesqrt : R → R

namespace Vec3

variable {R : Type} [Field R]

/-- The constructor `glm::vec3(s)`: every component is `s`. -/
def splat (s : R) : Vec3 R := ⟨s, s, s⟩

/-- Component-wise `a + b` of glm. -/
def add (a b : Vec3 R) : Vec3 R := ⟨a.x + b.x, a.y + b.y, a.z + b.z⟩

/-- Component-wise `a * b` of glm. -/
def mul (a b : Vec3 R) : Vec3 R := ⟨a.x * b.x, a.y * b.y, a.z * b.z⟩

/-- The product `v * s` of a vector and a scalar. -/
def smul (v : Vec3 R) (s : R) : Vec3 R := ⟨v.x * s, v.y * s, v.z * s⟩

/-- The unary minus of glm. -/
def neg (v : Vec3 R) : Vec3 R := ⟨-v.x, -v.y, -v.z⟩

end Vec3

namespace glm

variable {R : Type} [Field R]

/-- The scalar product `glm::dot`. -/
def dot (a b : Vec3 R) : R := a.x * b.x + a.y * b.y + a.z * b.z

/-- The function `glm::normalize(v) = v * inversesqrt(dot(v, v))`. -/
def normalize (ops : GlmOps R) (v : Vec3 R) : Vec3 R :=
  v.smul (ops.inversesqrt (dot v v))

/-- The function `glm::translate(m, v)`: columns 0..2 are kept and
`Result[3] = m[0] * v[0] + m[1] * v[1] + m[2] * v[2] + m[3]`. -/
def translate (m : Mat4 R) (v : Vec3 R) : Mat4 R :=
  Matrix.of fun i j =>
    if j = 3 then m i 0 * v.x + m i 1 * v.y + m i 2 * v.z + m i 3 else m i j

/-- The function `glm::rotate(m, angle, v)` (angle in radians): with
`c = cos angle`, `s = sin angle`, `axis = normalize v` and
`temp = (1 - c) * axis` it builds the 3x3 block `Rotate` and returns the
columns `m[0] * Rotate[k][0] + m[1] * Rotate[k][1] + m[2] * Rotate[k][2]` for
`k = 0, 1, 2`, followed by `m[3]`. -/
def rotate (ops : GlmOps R) (m : Mat4 R) (angle : R) (v : Vec3 R) : Mat4 R :=
  let c := ops.cos angle
  let s := ops.sin angle
  let axis := normalize ops v
  let temp := axis.smul (1 - c)
  let r00 := c + temp.x * axis.x
  let r01 := temp.x * axis.y + s * axis.z
  let r02 := temp.x * axis.z - s * axis.y
  let r10 := temp.y * axis.x - s * axis.z
  let r11 := c + temp.y * axis.y
  let r12 := temp.y * axis.z + s * axis.x
  let r20 := temp.z * axis.x + s * axis.y
  let r21 := temp.z * axis.y - s * axis.x
  let r22 := c + temp.z * axis.z
  Matrix.of fun i j =>
    if j = 0 then m i 0 * r00 + m i 1 * r01 + m i 2 * r02
    else if j = 1 then m i 0 * r10 + m i 1 * r11 + m i 2 * r12
    else if j = 2 then m i 0 * r20 + m i 1 * r21 + m i 2 * r22
    else m i 3

/-- The function `glm::scale(m, v)`: column `k` is `m[k] * v[k]` for
`k = 0, 1, 2` and column 3 is kept. -/
def scale (m : Mat4 R) (v : Vec3 R) : Mat4 R :=
  Matrix.of fun i j =>
    if j = 0 then m i 0 * v.x
    else if j = 1 then m i 1 * v.y
    else if j = 2 then m i 2 * v.z
    else m i 3

/-- The translation part of a matrix: the first three rows of column 3. -/
def translation (m : Mat4 R) : Vec3 R := ⟨m 0 3, m 1 3, m 2 3⟩

end glm

/-! ## Object3D -/

/-- A pointer to an `Object3D` in the heap. -/
abbrev Ptr := Nat

/-- The class `Object3D` (fields of `Object3D.h`). `m_children` holds the
shared pointers of the children, which `AddChild` keeps non-null; `m_parent`
is the weak pointer to the parent. -/
structure Object3D (R : Type) where
  position : Vec3 R
  rotation : Vec3 R
  scale : Vec3 R
  color : Vec3 R
  shininess : R
  useTexture : Bool
  name : String
  visible : Bool
  m_children : List Ptr
  m_parent : Option Ptr
  m_boundingBoxMin : Vec3 R
  m_boundingBoxMax : Vec3 R

/-- The objects that are alive, by address; `none` is a destroyed or never
allocated object. -/
abbrev Heap (R : Type) := Ptr → Option (Object3D R)

namespace Object3D

variable {R : Type} [Field R]

/-- The constructor `Object3D::Object3D(name)`. -/
def new (name : String) : Object3D R where
  position := Vec3.splat 0
  rotation := Vec3.splat 0
  scale := Vec3.splat 1
  color := Vec3.splat 1
  shininess := 32
  useTexture := false
  name := name
  visible := true
  m_children := []
  m_parent := none
  m_boundingBoxMin := Vec3.splat (-(1 / 2))
  m_boundingBoxMax := Vec3.splat (1 / 2)

/-- The method `Object3D::SetPosition`. -/
def SetPosition (o : Object3D R) (pos : Vec3 R) : Object3D R :=
  { o with position := pos }

/-- The method `Object3D::SetRotation`. -/
def SetRotation (o : Object3D R) (rot : Vec3 R) : Object3D R :=
  { o with rotation := rot }

/-- The method `Object3D::SetScale`. -/
def SetScale (o : Object3D R) (scl : Vec3 R) : Object3D R :=
  { o with scale := scl }

/-- The method `Object3D::Translate`: `position += translation`. -/
def Translate (o : Object3D R) (translation : Vec3 R) : Object3D R :=
  { o with position := o.position.add translation }

/-- The method `Object3D::Rotate`: `this->rotation += rotation`. -/
def Rotate (o : Object3D R) (rotation : Vec3 R) : Object3D R :=
  { o with rotation := o.rotation.add rotation }

/-- The method `Object3D::Scale`: `scale *= scaling`, component by component. -/
def Scale (o : Object3D R) (scaling : Vec3 R) : Object3D R :=
  { o with scale := o.scale.mul scaling }

/-- The method `Object3D::GetModelMatrix`. -/
def GetModelMatrix (ops : GlmOps R) (o : Object3D R) : Mat4 R :=
  let model : Mat4 R := 1
  let model := glm.translate model o.position
  let model := glm.rotate ops model (ops.radians o.rotation.x) ⟨1, 0, 0⟩
  let model := glm.rotate ops model (ops.radians o.rotation.y) ⟨0, 1, 0⟩
  let model := glm.rotate ops model (ops.radians o.rotation.z) ⟨0, 0, 1⟩
  let model := glm.scale model o.scale
  model

/-! ### The heap, the weak parent pointer and the world matrix -/

/-- The call `w.lock()` on a weak pointer: the target while it is alive, the
null pointer otherwise. -/
def lock (h : Heap R) (w : Option Ptr) : Option Ptr :=
  match w with
  | none => none
  | some p => if (h p).isSome then some p else none

/-- Writes `f o` over the object `o` at address `p`; a dead address is left
alone. -/
def modifyAt (h : Heap R) (p : Ptr) (f : Object3D R → Object3D R) : Heap R :=
  fun q => if q = p then (h p).map f else h q

/-- The test `p->name == n` of the loops over child and object lists. The
pointers in those lists are shared pointers, hence alive; on a dead address
the test is false. -/
def nameEq (h : Heap R) (n : String) (p : Ptr) : Bool :=
  match h p with
  | some o => o.name == n
  | none => false

/-- The method `Object3D::GetParent`: `m_parent.lock()`. -/
def GetParent (h : Heap R) (this : Ptr) : Option Ptr :=
  match h this with
  | none => none
  | some o => lock h o.m_parent

/-- The method `Object3D::GetWorldMatrix`; the fuel bounds the number of
objects visited along the parent chain. -/
def GetWorldMatrix (ops : GlmOps R) (h : Heap R) : Nat → Ptr → Option (Mat4 R)
  | 0, _ => none
  | fuel + 1, this =>
    match h this with
    | none => none
    | some o =>
      let worldMatrix := o.GetModelMatrix ops
      match lock h o.m_parent with
      | some parent =>
        match GetWorldMatrix ops h fuel parent with
        | some parentWorld => some (parentWorld * worldMatrix)
        | none => none
      | none => some worldMatrix

/-! ### Hierarchy -/

/-- The method `Object3D::SetParent`. -/
def SetParent (h : Heap R) (this : Ptr) (parent : Option Ptr) : Heap R :=
  modifyAt h this fun o => { o with m_parent := parent }

/-- The method `Object3D::AddChild`; `shared_from_this()` is `some this`. -/
def AddChild (h : Heap R) (this : Ptr) (child : Option Ptr) : Heap R :=
  match child with
  | some c =>
    let h := SetParent h c (some this)
    modifyAt h this fun o => { o with m_children := o.m_children ++ [c] }
  | none => h

/-- The method `Object3D::RemoveChild`: `erase(remove_if(...), end())` keeps,
in their order, the entries on which the predicate is false. Removed children
stay in the heap, as they do when another owner still holds them. -/
def RemoveChild (h : Heap R) (this : Ptr) (childName : String) : Heap R :=
  modifyAt h this fun o =>
    { o with m_children := o.m_children.filter fun child => !nameEq h childName child }

/-- The method `Object3D::GetChild`: the loop returns at the first child whose
name matches and yields the null pointer when it runs to the end. -/
def GetChild (h : Heap R) (this : Ptr) (childName : String) : Option Ptr :=
  match h this with
  | none => none
  | some o => o.m_children.find? fun child => nameEq h childName child

/-- The method `Object3D::SetBoundingBox`. -/
def SetBoundingBox (o : Object3D R) (min max : Vec3 R) : Object3D R :=
  { o with m_boundingBoxMin := min, m_boundingBoxMax := max }

end Object3D

/-! ## ShaderManager -/

/-- One call received by the shader sink. -/
inductive ShaderCall (R : Type) where
  | mat4 (name : String) (value : Mat4 R)
  | vec3 (name : String) (value : Vec3 R)
  | float (name : String) (value : R)
  | bool (name : String) (value : Bool)

/-- Modelled from the spec: the class `ShaderManager` (its header is not among
the sources) is the shader sink, with the calls `setMat4Value`, `setVec3Value`,
`setFloatValue` and `setBoolValue`. The model is the list of the calls received
so far, oldest first. -/
abbrev ShaderManager (R : Type) := List (ShaderCall R)

namespace ShaderManager

variable {R : Type}

/-- The call `shader.setMat4Value(name, value)`. -/
def setMat4Value (shader : ShaderManager R) (name : String) (value : Mat4 R) :
    ShaderManager R := shader ++ [ShaderCall.mat4 name value]

/-- The call `shader.setVec3Value(name, value)`. -/
def setVec3Value (shader : ShaderManager R) (name : String) (value : Vec3 R) :
    ShaderManager R := shader ++ [ShaderCall.vec3 name value]

/-- The call `shader.setFloatValue(name, value)`. -/
def setFloatValue (shader : ShaderManager R) (name : String) (value : R) :
    ShaderManager R := shader ++ [ShaderCall.float name value]

/-- The call `shader.setBoolValue(name, value)`. -/
def setBoolValue (shader : ShaderManager R) (name : String) (value : Bool) :
    ShaderManager R := shader ++ [ShaderCall.bool name value]

end ShaderManager

namespace Object3D

variable {R : Type} [Field R]

/-- The method `Object3D::RenderChildren`; `render` is the virtual call
`child->Render(shader, parentMatrix)`. -/
def RenderChildren (render : Ptr → Mat4 R → ShaderManager R → Option (ShaderManager R)) :
    List Ptr → Mat4 R → ShaderManager R → Option (ShaderManager R)
  | [], _, shader => some shader
  | child :: rest, parentMatrix, shader =>
    match render child parentMatrix shader with
    | some shader => RenderChildren render rest parentMatrix shader
    | none => none

/-- The method `Object3D::Render(ShaderManager&, const glm::mat4&)`; the fuel
bounds the depth of the traversal. -/
def RenderParent (ops : GlmOps R) (h : Heap R) :
    Nat → Ptr → Mat4 R → ShaderManager R → Option (ShaderManager R)
  | 0, _, _, _ => none
  | fuel + 1, this, parentMatrix, shader =>
    match h this with
    | none => none
    | some o =>
      if !o.visible then some shader
      else
        let worldMatrix := parentMatrix * o.GetModelMatrix ops
        let shader := shader.setMat4Value "model" worldMatrix
        let shader := shader.setVec3Value "material.ambient" (o.color.smul (1 / 10))
        let shader := shader.setVec3Value "material.diffuse" o.color
        let shader := shader.setVec3Value "material.specular" (o.color.smul (1 / 2))
        let shader := shader.setFloatValue "material.shininess" o.shininess
        let shader := shader.setBoolValue "useTexture" o.useTexture
        RenderChildren (RenderParent ops h fuel) o.m_children worldMatrix shader

/-- The method `Object3D::Render(ShaderManager&)`; the fuel bounds both the
walk up the parent chain and the depth of the traversal. -/
def Render (ops : GlmOps R) (h : Heap R) (fuel : Nat) (this : Ptr)
    (shader : ShaderManager R) : Option (ShaderManager R) :=
  match h this with
  | none => none
  | some o =>
    if !o.visible then some shader
    else
      match GetWorldMatrix ops h fuel this with
      | none => none
      | some modelMatrix =>
        let shader := shader.setMat4Value "model" modelMatrix
        let shader := shader.setVec3Value "material.ambient" (o.color.smul (1 / 10))
        let shader := shader.setVec3Value "material.diffuse" o.color
        let shader := shader.setVec3Value "material.specular" (o.color.smul (1 / 2))
        let shader := shader.setFloatValue "material.shininess" o.shininess
        let shader := shader.setBoolValue "useTexture" o.useTexture
        RenderChildren (RenderParent ops h fuel) o.m_children modelMatrix shader

end Object3D

/-! ## SceneManager -/

/-- The class `Light` as `SceneManager.cpp` declares it. -/
structure Light (R : Type) where
  name : String
  position : Vec3 R
  color : Vec3 R
  intensity : R

/-- The class `SceneManager`: the registered root objects (shared pointers,
which `AddObject` keeps non-null), the lights and the ambient light. -/
structure SceneManager (R : Type) where
  m_objects : List Ptr
  m_lights : List (Light R)
  m_ambientLight : Vec3 R

namespace SceneManager

variable {R : Type} [Field R]

/-- The constructor `SceneManager::SceneManager()`. -/
def new : SceneManager R where
  m_objects := []
  m_lights := []
  m_ambientLight := ⟨1 / 10, 1 / 10, 1 / 10⟩

/-- The method `SceneManager::AddObject` (the line written to the console is
not modelled). No object is written. -/
def AddObject (sm : SceneManager R) (object : Option Ptr) : SceneManager R :=
  match object with
  | some o => { sm with m_objects := sm.m_objects ++ [o] }
  | none => sm

/-- The method `SceneManager::RemoveObject`. -/
def RemoveObject (h : Heap R) (sm : SceneManager R) (name : String) : SceneManager R :=
  { sm with m_objects := sm.m_objects.filter fun obj => !Object3D.nameEq h name obj }

/-- The method `SceneManager::GetObject`. -/
def GetObject (h : Heap R) (sm : SceneManager R) (name : String) : Option Ptr :=
  sm.m_objects.find? fun obj => Object3D.nameEq h name obj

end SceneManager

/-! ## Update -/

/-- The state threaded through `Update`: the heap, and the addresses on which
`Update` has been entered so far, oldest first (a record kept for the
statements; the source has no such list). -/
structure UpdateState (R : Type) where
  heap : Heap R
  visited : List Ptr

namespace Object3D

variable {R : Type}

/-- The method `Object3D::UpdateChildren`; `update` is the virtual call
`child->Update(deltaTime)`. -/
def UpdateChildren (update : Ptr → UpdateState R → Option (UpdateState R)) :
    List Ptr → UpdateState R → Option (UpdateState R)
  | [], st => some st
  | child :: rest, st =>
    match update child st with
    | some st => UpdateChildren update rest st
    | none => none

/-- The method `Object3D::Update` of the base class: it updates the children
and does nothing else; the fuel bounds the depth of the traversal. -/
def Update : Nat → Ptr → R → UpdateState R → Option (UpdateState R)
  | 0, _, _, _ => none
  | fuel + 1, this, deltaTime, st =>
    match st.heap this with
    | none => none
    | some o =>
      UpdateChildren (fun child => Update fuel child deltaTime) o.m_children
        { st with visited := st.visited ++ [this] }

end Object3D

namespace SceneManager

variable {R : Type}

/-- The loop `for (auto& object : m_objects) object->Update(deltaTime)` of
`SceneManager::Update`. -/
def UpdateObjects (fuel : Nat) (deltaTime : R) :
    List Ptr → UpdateState R → Option (UpdateState R)
  | [], st => some st
  | object :: rest, st =>
    match Object3D.Update fuel object deltaTime st with
    | some st => UpdateObjects fuel deltaTime rest st
    | none => none

/-- The method `SceneManager::Update`: every registered object is updated in
registration order; the loop over the lights has an empty body. -/
def Update (fuel : Nat) (sm : SceneManager R) (deltaTime : R) (st : UpdateState R) :
    Option (UpdateState R) :=
  UpdateObjects fuel deltaTime sm.m_objects st

end SceneManager

/-! ## The hierarchy as a relation -/

section HierarchyRelation

variable {R : Type}

/-- The node `c` is an entry of the child list of the live node `n`. -/
def IsChild (h : Heap R) (n c : Ptr) : Prop :=
  ∃ o, h n = some o ∧ c ∈ o.m_children

/-- The node `d` is `n` or a descendant of `n`. -/
def IsDescendant (h : Heap R) (n d : Ptr) : Prop :=
  Relation.ReflTransGen (IsChild h) n d

/-- The subtree below the live node `n` has at most `depth` levels: `n` is
alive and each child has a subtree of at most `depth - 1` levels. -/
inductive WithinDepth (h : Heap R) : Nat → Ptr → Prop where
  | node (depth : Nat) (n : Ptr) (o : Object3D R) (hn : h n = some o)
      (hc : ∀ c ∈ o.m_children, WithinDepth h depth c) : WithinDepth h (depth + 1) n

/-- Every live node of the heap is detached: no children, no parent. -/
def Detached (h : Heap R) : Prop :=
  ∀ n o, h n = some o → o.m_children = [] ∧ o.m_parent = none

/-- The heaps reached from detached nodes by `AddChild` and `RemoveChild`
calls on live nodes; a call `P.AddChild(C)` with a non-null `C` is admitted
when `guard h P C` holds in the heap `h` before the call. -/
inductive ReachableBy (guard : Heap R → Ptr → Ptr → Prop) : Heap R → Prop where
  | start (h : Heap R) (hd : Detached h) : ReachableBy guard h
  | addChild (h : Heap R) (P C : Ptr) (hr : ReachableBy guard h) (hP : (h P).isSome = true)
      (hC : (h C).isSome = true) (hg : guard h P C) :
      ReachableBy guard (Object3D.AddChild h P (some C))
  | addNull (h : Heap R) (P : Ptr) (hr : ReachableBy guard h) :
      ReachableBy guard (Object3D.AddChild h P none)
  | removeChild (h : Heap R) (P : Ptr) (name : String) (hr : ReachableBy guard h) :
      ReachableBy guard (Object3D.RemoveChild h P name)

/-- The guard that admits every call. -/
def AnyCall (_ : Heap R) (_ _ : Ptr) : Prop := True

/-- The guard the source does not have: the new parent `P` is neither the
child `C` itself nor a descendant of `C`. -/
def NotOwnAncestor (h : Heap R) (P C : Ptr) : Prop := ¬ IsDescendant h C P

end HierarchyRelation

/-! ## The floor and marker scenario -/

section Scenario

variable (R : Type) [Field R]

/-- The root node "floor": position (0,-1,0), no rotation, scale (10,0.1,10). -/
def floorNode : Object3D R :=
  ((Object3D.new "floor").SetPosition ⟨0, -1, 0⟩).SetScale ⟨10, 1 / 10, 10⟩

/-- The node "marker": local position (0,1,0), no rotation, scale (1,1,1). -/
def markerNode : Object3D R :=
  (Object3D.new "marker").SetPosition ⟨0, 1, 0⟩

/-- The two detached nodes: the floor at address 0, the marker at address 1. -/
def detachedScene : Heap R := fun p =>
  if p = 0 then some (floorNode R) else if p = 1 then some (markerNode R) else none

/-- The scenario: `floor->AddChild(marker)`. -/
def floorMarkerScene : Heap R :=
  Object3D.AddChild (detachedScene R) 0 (some 1)

/-- The scenario with the floor hidden: `floor->visible = false`, the marker
below it still visible. -/
def hiddenFloorScene : Heap R :=
  Object3D.modifyAt (floorMarkerScene R) 0 fun o => { o with visible := false }

/-- A parent at address 0 with the children "twin", "other", "twin" at the
addresses 1, 2, 3, attached in this order; "other" has the child "deep" at
address 4. -/
def twinScene : Heap R :=
  let h : Heap R := fun p =>
    if p = 0 then some (Object3D.new "parent")
    else if p = 1 then some (Object3D.new "twin")
    else if p = 2 then some (Object3D.new "other")
    else if p = 3 then some (Object3D.new "twin")
    else if p = 4 then some (Object3D.new "deep")
    else none
  let h := Object3D.AddChild h 0 (some 1)
  let h := Object3D.AddChild h 0 (some 2)
  let h := Object3D.AddChild h 0 (some 3)
  Object3D.AddChild h 2 (some 4)

/-- The floor attached to itself: `floor->AddChild(floor)` on the detached
nodes. -/
def selfChildScene : Heap R :=
  Object3D.AddChild (detachedScene R) 0 (some 0)

end Scenario

/-! ## The matrices named by the specification -/

section SpecMatrices

variable {R : Type} [Field R]

/-- The translation matrix `translate(p)` of the specification. -/
def translateM (p : Vec3 R) : Mat4 R :=
  !![1, 0, 0, p.x; 0, 1, 0, p.y; 0, 0, 1, p.z; 0, 0, 0, 1]

/-- The rotation `rotateX(deg)` of the specification, about the X axis by
`deg` degrees. -/
def rotateXM (ops : GlmOps R) (deg : R) : Mat4 R :=
  let c := ops.cos (ops.radians deg)
  let s := ops.sin (ops.radians deg)
  !![1, 0, 0, 0; 0, c, -s, 0; 0, s, c, 0; 0, 0, 0, 1]

/-- The rotation `rotateY(deg)` of the specification, about the Y axis by
`deg` degrees. -/
def rotateYM (ops : GlmOps R) (deg : R) : Mat4 R :=
  let c := ops.cos (ops.radians deg)
  let s := ops.sin (ops.radians deg)
  !![c, 0, s, 0; 0, 1, 0, 0; -s, 0, c, 0; 0, 0, 0, 1]

/-- The rotation `rotateZ(deg)` of the specification, about the Z axis by
`deg` degrees. -/
def rotateZM (ops : GlmOps R) (deg : R) : Mat4 R :=
  let c := ops.cos (ops.radians deg)
  let s := ops.sin (ops.radians deg)
  !![c, -s, 0, 0; s, c, 0, 0; 0, 0, 1, 0; 0, 0, 0, 1]

/-- The scaling matrix `scale(s)` of the specification. -/
def scaleM (s : Vec3 R) : Mat4 R :=
  !![s.x, 0, 0, 0; 0, s.y, 0, 0; 0, 0, s.z, 0; 0, 0, 0, 1]

/-- The local matrix `local(p)` of the node at address `p`. -/
def localMatrix (ops : GlmOps R) (h : Heap R) (p : Ptr) : Mat4 R :=
  match h p with
  | some o => o.GetModelMatrix ops
  | none => 1

/-- The traversal of the specification: every node of the subtree, parents
before children and children in child-list order, sets `model` to its world
matrix `world n` and then its material; `world` is `GetWorldMatrix`. The fuel
bounds the depth. -/
def RenderWorld (world : Ptr → Option (Mat4 R)) (h : Heap R) :
    Nat → Ptr → ShaderManager R → Option (ShaderManager R)
  | 0, _, _ => none
  | fuel + 1, n, shader =>
    match h n with
    | none => none
    | some o =>
      match world n with
      | none => none
      | some W =>
        let shader := shader.setMat4Value "model" W
        let shader := shader.setVec3Value "material.ambient" (o.color.smul (1 / 10))
        let shader := shader.setVec3Value "material.diffuse" o.color
        let shader := shader.setVec3Value "material.specular" (o.color.smul (1 / 2))
        let shader := shader.setFloatValue "material.shininess" o.shininess
        let shader := shader.setBoolValue "useTexture" o.useTexture
        Object3D.RenderChildren (fun c _ s => RenderWorld world h fuel c s) o.m_children W
          shader

end SpecMatrices

/-! ## ParticleSystem

Scalars are elements of a linearly ordered field with a floor function. The
calls into OpenGL (`SetupBuffers`, `Cleanup`, the uploads at the end of
`UpdateBuffers`, `Render`) are not modelled. -/

/-- The glm vector `glm::vec4`, with the colour names of its components. -/
structure Vec4 (R : Type) where
  r : R
  g : R
  b : R
  a : R

/-- The struct `Particle`. -/
structure Particle (R : Type) where
  position : Vec3 R
  velocity : Vec3 R
  acceleration : Vec3 R
  color : Vec4 R
  life : R
  maxLife : R
  size : R
  rotation : R
  rotationSpeed : R

/-- A value returned by `m_distribution(m_rng)`, the uniform distribution on
`[0, 1)`. -/
abbrev UnitDraw (R : Type) [LinearOrderedField R] := { u : R // 0 ≤ u ∧ u < 1 }

/-- The class `ParticleSystem`. The generator `m_rng` with its distribution is
the sequence of the values it is going to return, and `m_drawn` counts the
values drawn so far. -/
structure ParticleSystem (R : Type) [LinearOrderedField R] where
  m_particles : List (Particle R)
  m_vertices : List (Vec3 R)
  m_colors : List (Vec4 R)
  m_position : Vec3 R
  m_velocityMin : Vec3 R
  m_velocityMax : Vec3 R
  m_acceleration : Vec3 R
  m_particleColor : Vec4 R
  m_emissionRate : R
  m_lifeMin : R
  m_lifeMax : R
  m_sizeMin : R
  m_sizeMax : R
  m_active : Bool
  m_VAO : Nat
  m_VBO : Nat
  m_colorVBO : Nat
  m_blending : Bool
  m_depthTest : Bool
  m_rng : Nat → UnitDraw R
  m_drawn : Nat

/-- The conversion `static_cast<int>(x)`: truncation towards zero. The source
converts to a 32-bit `int`, and the conversion is defined only while the
truncated value fits; the model keeps the unbounded integer. -/
def truncToInt {R : Type} [LinearOrderedField R] [FloorRing R] (x : R) : Int :=
  if 0 ≤ x then ⌊x⌋ else ⌈x⌉

namespace ParticleSystem

variable {R : Type} [LinearOrderedField R] [FloorRing R]

/-- The constructor `ParticleSystem::ParticleSystem()`; `rng` is the sequence
the freshly seeded generator is going to return. -/
def new (rng : Nat → UnitDraw R) : ParticleSystem R where
  m_particles := []
  m_vertices := []
  m_colors := []
  m_position := Vec3.splat 0
  m_velocityMin := Vec3.splat (-1)
  m_velocityMax := Vec3.splat 1
  m_acceleration := ⟨0, -(981 / 100), 0⟩
  m_particleColor := ⟨1, 1, 1, 1⟩
  m_emissionRate := 10
  m_lifeMin := 1
  m_lifeMax := 3
  m_sizeMin := 1 / 10
  m_sizeMax := 1 / 2
  m_active := false
  m_VAO := 0
  m_VBO := 0
  m_colorVBO := 0
  m_blending := true
  m_depthTest := false
  m_rng := rng
  m_drawn := 0

/-- The method `ParticleSystem::SetEmissionRate`. -/
def SetEmissionRate (ps : ParticleSystem R) (rate : R) : ParticleSystem R :=
  { ps with m_emissionRate := rate }

/-- The method `ParticleSystem::SetParticleLife`. -/
def SetParticleLife (ps : ParticleSystem R) (minLife maxLife : R) : ParticleSystem R :=
  { ps with m_lifeMin := minLife, m_lifeMax := maxLife }

/-- The method `ParticleSystem::SetParticleSize`. -/
def SetParticleSize (ps : ParticleSystem R) (minSize maxSize : R) : ParticleSystem R :=
  { ps with m_sizeMin := minSize, m_sizeMax := maxSize }

/-- The method `ParticleSystem::SetParticleColor`. -/
def SetParticleColor (ps : ParticleSystem R) (color : Vec4 R) : ParticleSystem R :=
  { ps with m_particleColor := color }

/-- The method `ParticleSystem::SetVelocityRange`. -/
def SetVelocityRange (ps : ParticleSystem R) (minVel maxVel : Vec3 R) : ParticleSystem R :=
  { ps with m_velocityMin := minVel, m_velocityMax := maxVel }

/-- The method `ParticleSystem::SetAcceleration`. -/
def SetAcceleration (ps : ParticleSystem R) (accel : Vec3 R) : ParticleSystem R :=
  { ps with m_acceleration := accel }

/-- The method `ParticleSystem::Start`. -/
def Start (ps : ParticleSystem R) : ParticleSystem R := { ps with m_active := true }

/-- The method `ParticleSystem::Stop`. -/
def Stop (ps : ParticleSystem R) : ParticleSystem R := { ps with m_active := false }

/-- The method `ParticleSystem::SetPosition`. -/
def SetPosition (ps : ParticleSystem R) (position : Vec3 R) : ParticleSystem R :=
  { ps with m_position := position }

/-- The method `ParticleSystem::RandomFloat`:
`min + m_distribution(m_rng) * (max - min)`; one value is drawn. -/
def RandomFloat (ps : ParticleSystem R) (min max : R) : R × ParticleSystem R :=
  (min + (ps.m_rng ps.m_drawn).val * (max - min), { ps with m_drawn := ps.m_drawn + 1 })

/-- The method `ParticleSystem::RandomVector`; the three calls of `RandomFloat`
are taken in the order x, y, z (the source leaves the order to the compiler). -/
def RandomVector (ps : ParticleSystem R) (min max : Vec3 R) : Vec3 R × ParticleSystem R :=
  let (x, ps) := RandomFloat ps min.x max.x
  let (y, ps) := RandomFloat ps min.y max.y
  let (z, ps) := RandomFloat ps min.z max.z
  (⟨x, y, z⟩, ps)

/-- The method `ParticleSystem::CreateParticle`. -/
def CreateParticle (ps : ParticleSystem R) (position : Vec3 R) : ParticleSystem R :=
  let (velocity, ps) := RandomVector ps ps.m_velocityMin ps.m_velocityMax
  let acceleration := ps.m_acceleration
  let color := ps.m_particleColor
  let (maxLife, ps) := RandomFloat ps ps.m_lifeMin ps.m_lifeMax
  let life := maxLife
  let (size, ps) := RandomFloat ps ps.m_sizeMin ps.m_sizeMax
  let (rotation, ps) := RandomFloat ps 0 360
  let (rotationSpeed, ps) := RandomFloat ps (-180) 180
  let particle : Particle R :=
    { position := position, velocity := velocity, acceleration := acceleration,
      color := color, life := life, maxLife := maxLife, size := size,
      rotation := rotation, rotationSpeed := rotationSpeed }
  { ps with m_particles := ps.m_particles ++ [particle] }

/-- The method `ParticleSystem::Emit`: the loop body runs `count` times, and
not at all when `count` is not positive. -/
def Emit (ps : ParticleSystem R) (position : Vec3 R) (count : Int) : ParticleSystem R :=
  (fun ps => CreateParticle ps position)^[count.toNat] ps

/-- The method `ParticleSystem::UpdateParticle`. -/
def UpdateParticle (particle : Particle R) (deltaTime : R) : Particle R :=
  let particle :=
    { particle with velocity := particle.velocity.add (particle.acceleration.smul deltaTime) }
  let particle :=
    { particle with position := particle.position.add (particle.velocity.smul deltaTime) }
  let particle :=
    { particle with rotation := particle.rotation + particle.rotationSpeed * deltaTime }
  let particle := { particle with life := particle.life - deltaTime }
  let lifeRatio := particle.life / particle.maxLife
  let particle := { particle with color := { particle.color with a := lifeRatio } }
  if lifeRatio < 3 / 10 then
    { particle with
      color := { particle.color with a := particle.color.a * (lifeRatio / (3 / 10)) } }
  else particle

/-- The method `ParticleSystem::RemoveDeadParticles`. -/
def RemoveDeadParticles (ps : ParticleSystem R) : ParticleSystem R :=
  { ps with m_particles := ps.m_particles.filter fun particle => !decide (particle.life ≤ 0) }

/-- The four corners `v1, v2, v3, v4` the loop body of `UpdateBuffers` builds
for one particle (the statements up to "Apply rotation" included). -/
def quadCorners (ops : GlmOps R) (particle : Particle R) :
    Vec3 R × Vec3 R × Vec3 R × Vec3 R :=
  let halfSize := particle.size * (1 / 2)
  let cosRot := ops.cos (ops.radians particle.rotation)
  let sinRot := ops.sin (ops.radians particle.rotation)
  let v1 := particle.position.add ⟨-halfSize, -halfSize, 0⟩
  let v2 := particle.position.add ⟨halfSize, -halfSize, 0⟩
  let v3 := particle.position.add ⟨halfSize, halfSize, 0⟩
  let v4 := particle.position.add ⟨-halfSize, halfSize, 0⟩
  let v1 : Vec3 R := ⟨v1.x * cosRot - v1.y * sinRot, v1.x * sinRot + v1.y * cosRot, v1.z⟩
  let v2 : Vec3 R := ⟨v2.x * cosRot - v2.y * sinRot, v2.x * sinRot + v2.y * cosRot, v2.z⟩
  let v3 : Vec3 R := ⟨v3.x * cosRot - v3.y * sinRot, v3.x * sinRot + v3.y * cosRot, v3.z⟩
  let v4 : Vec3 R := ⟨v4.x * cosRot - v4.y * sinRot, v4.x * sinRot + v4.y * cosRot, v4.z⟩
  (v1, v2, v3, v4)

/-- The loop of `ParticleSystem::UpdateBuffers` over the particles: six
vertices and six colours are pushed for each. -/
def fillBuffers (ops : GlmOps R) :
    List (Particle R) → List (Vec3 R) × List (Vec4 R) → List (Vec3 R) × List (Vec4 R)
  | [], buffers => buffers
  | particle :: rest, (vertices, colors) =>
    let (v1, v2, v3, v4) := quadCorners ops particle
    let vertices := vertices ++ [v1] ++ [v2] ++ [v3]
    let vertices := vertices ++ [v1] ++ [v3] ++ [v4]
    let colors := (fun colors => colors ++ [particle.color])^[6] colors
    fillBuffers ops rest (vertices, colors)

/-- The method `ParticleSystem::UpdateBuffers`: both arrays are cleared and
filled again from the particles. -/
def UpdateBuffers (ops : GlmOps R) (ps : ParticleSystem R) : ParticleSystem R :=
  let ps := { ps with m_vertices := [] }
  let ps := { ps with m_colors := [] }
  let buffers := fillBuffers ops ps.m_particles (ps.m_vertices, ps.m_colors)
  { ps with m_vertices := buffers.1, m_colors := buffers.2 }

/-- The method `ParticleSystem::Reset`. -/
def Reset (ops : GlmOps R) (ps : ParticleSystem R) : ParticleSystem R :=
  let ps := { ps with m_particles := [] }
  let ps := { ps with m_vertices := [] }
  let ps := { ps with m_colors := [] }
  UpdateBuffers ops ps

/-- The method `ParticleSystem::Update`. -/
def Update (ops : GlmOps R) (ps : ParticleSystem R) (deltaTime : R) : ParticleSystem R :=
  if !ps.m_active then ps
  else
    let emissionCount := ps.m_emissionRate * deltaTime
    let particlesToEmit : Int := truncToInt emissionCount
    let (random, ps) := RandomFloat ps 0 1
    let particlesToEmit :=
      if emissionCount - (particlesToEmit : R) > random then particlesToEmit + 1
      else particlesToEmit
    let ps := (fun ps => Emit ps ps.m_position 1)^[particlesToEmit.toNat] ps
    let ps :=
      { ps with
        m_particles := ps.m_particles.map fun particle => UpdateParticle particle deltaTime }
    let ps := RemoveDeadParticles ps
    UpdateBuffers ops ps

/-- The value of the local variable `particlesToEmit` of `Update` when the
emission loop starts. -/
def particlesToEmit (ps : ParticleSystem R) (deltaTime : R) : Int :=
  let emissionCount := ps.m_emissionRate * deltaTime
  let particlesToEmit : Int := truncToInt emissionCount
  if emissionCount - (particlesToEmit : R) > (RandomFloat ps 0 1).1 then particlesToEmit + 1
  else particlesToEmit

/-- The engine states reached from an engine without particles by `Emit`, by
`Update` with a non-negative `deltaTime`, and by any change that leaves the
particle collection alone (`Start`, `Stop`, the setters). -/
inductive Reachable (ops : GlmOps R) : ParticleSystem R → Prop where
  | fresh (ps : ParticleSystem R) (h : ps.m_particles = []) : Reachable ops ps
  | emit (ps : ParticleSystem R) (position : Vec3 R) (count : Int) (h : Reachable ops ps) :
      Reachable ops (Emit ps position count)
  | update (ps : ParticleSystem R) (deltaTime : R) (h : Reachable ops ps)
      (hdt : 0 ≤ deltaTime) : Reachable ops (Update ops ps deltaTime)
  | configure (ps ps2 : ParticleSystem R) (h : Reachable ops ps)
      (hp : ps2.m_particles = ps.m_particles) : Reachable ops ps2

/-- The engine `ps` with a generator whose every draw is `u`. -/
def withDraw (ps : ParticleSystem R) (u : UnitDraw R) : ParticleSystem R :=
  { ps with m_rng := fun _ => u }

/-- The number of runs of the emission loop of `Update` when the draw is `u`;
outside `[0, 1)`, where the distribution has no values, it is 0. -/
def spawnedFor (ps : ParticleSystem R) (deltaTime : R) (u : R) : Nat :=
  if hu : 0 ≤ u ∧ u < 1 then (particlesToEmit (withDraw ps ⟨u, hu⟩) deltaTime).toNat else 0

/-- The engine states reached from `ps0` by a sequence of `Start`, `Stop`,
`Emit` and `Update` calls, the latter with a non-negative `deltaTime`. -/
inductive Run (ops : GlmOps R) (ps0 : ParticleSystem R) : ParticleSystem R → Prop where
  | init : Run ops ps0 ps0
  | start (ps : ParticleSystem R) (h : Run ops ps0 ps) : Run ops ps0 (Start ps)
  | stop (ps : ParticleSystem R) (h : Run ops ps0 ps) : Run ops ps0 (Stop ps)
  | emit (ps : ParticleSystem R) (position : Vec3 R) (count : Int) (h : Run ops ps0 ps) :
      Run ops ps0 (Emit ps position count)
  | update (ps : ParticleSystem R) (deltaTime : R) (h : Run ops ps0 ps)
      (hdt : 0 ≤ deltaTime) : Run ops ps0 (Update ops ps deltaTime)

end ParticleSystem

/-! ## The quantities named by the specification for the particle engine -/

section ParticleSpec

variable {R : Type} [LinearOrderedField R] [FloorRing R]

/-- The number of particles to spawn for the real-valued emission count `e`
and the uniform draw `u`: the integer part, and one more when the fractional
part exceeds the draw. -/
def spawnCount (e u : R) : Nat :=
  if Int.fract e > u then ⌊e⌋₊ + 1 else ⌊e⌋₊

/-- The alpha of the two-stage fade at life ratio `r`: `r` itself from 0.3
upwards, `r * (r / 0.3)` below. -/
def fadeAlpha (r : R) : R :=
  if r < 3 / 10 then r * (r / (3 / 10)) else r

/-- The corner `p + Rz(a) * (dx, dy, 0)` of the specification: the offset is
rotated about the Z axis by `a` degrees and added to the position `p`. -/
def specCorner (ops : GlmOps R) (p : Vec3 R) (a dx dy : R) : Vec3 R :=
  let c := ops.cos (ops.radians a)
  let s := ops.sin (ops.radians a)
  p.add ⟨dx * c - dy * s, dx * s + dy * c, 0⟩

/-- A particle away from the origin: position (1,0,0), size 2, rotation 180
degrees. -/
def offCentreParticle (R : Type) [LinearOrderedField R] : Particle R where
  position := ⟨1, 0, 0⟩
  velocity := ⟨0, 0, 0⟩
  acceleration := ⟨0, 0, 0⟩
  color := ⟨1, 1, 1, 1⟩
  life := 1
  maxLife := 1
  size := 2
  rotation := 180
  rotationSpeed := 0

/-- The generator that returns 1/2 at every draw. -/
def halfDraws (R : Type) [LinearOrderedField R] : Nat → UnitDraw R :=
  fun _ => ⟨1 / 2, by norm_num, by norm_num⟩

/-- The six vertices of the two triangles of one particle in the order of the
specification: corners 1, 2, 3 and 1, 3, 4. -/
def quadVertices (ops : GlmOps R) (p : Particle R) : List (Vec3 R) :=
  [(ParticleSystem.quadCorners ops p).1, (ParticleSystem.quadCorners ops p).2.1,
    (ParticleSystem.quadCorners ops p).2.2.1, (ParticleSystem.quadCorners ops p).1,
    (ParticleSystem.quadCorners ops p).2.2.1, (ParticleSystem.quadCorners ops p).2.2.2]

/-- An engine with one particle: a fresh engine with the generator
`halfDraws`, one particle emitted at the origin, the emission rate set to 0 and
the engine started. -/
def oneParticleEngine (R : Type) [LinearOrderedField R] : ParticleSystem R :=
  ((ParticleSystem.new (halfDraws R)).Emit ⟨0, 0, 0⟩ 1).SetEmissionRate 0 |>.Start

end ParticleSpec

/-! ## Theorems -/

section GlmLemmas

variable {R : Type} [Field R]

theorem glm_translate_eq_mul (m : Mat4 R) (v : Vec3 R) :
    glm.translate m v = m * translateM v := by
  ext i j
  fin_cases j <;>
    simp [glm.translate, translateM, Matrix.mul_apply, Fin.sum_univ_four, Matrix.vecHead, Matrix.vecTail]

theorem glm_scale_eq_mul (m : Mat4 R) (v : Vec3 R) :
    glm.scale m v = m * scaleM v := by
  ext i j
  fin_cases j <;>
    simp [glm.scale, scaleM, Matrix.mul_apply, Fin.sum_univ_four, Matrix.vecHead, Matrix.vecTail]

theorem glm_rotate_x (ops : GlmOps R) (h1 : ops.inversesqrt 1 = 1) (m : Mat4 R)
    (deg : R) :
    glm.rotate ops m (ops.radians deg) ⟨1, 0, 0⟩ = m * rotateXM ops deg := by
  ext i j
  fin_cases j <;>
    simp [glm.rotate, glm.normalize, glm.dot, Vec3.smul, rotateXM, h1,
      Matrix.mul_apply, Fin.sum_univ_four, Matrix.vecHead, Matrix.vecTail]

theorem glm_rotate_y (ops : GlmOps R) (h1 : ops.inversesqrt 1 = 1) (m : Mat4 R)
    (deg : R) :
    glm.rotate ops m (ops.radians deg) ⟨0, 1, 0⟩ = m * rotateYM ops deg := by
  ext i j
  fin_cases j <;>
    simp [glm.rotate, glm.normalize, glm.dot, Vec3.smul, rotateYM, h1,
      Matrix.mul_apply, Fin.sum_univ_four, Matrix.vecHead, Matrix.vecTail]

theorem glm_rotate_z (ops : GlmOps R) (h1 : ops.inversesqrt 1 = 1) (m : Mat4 R)
    (deg : R) :
    glm.rotate ops m (ops.radians deg) ⟨0, 0, 1⟩ = m * rotateZM ops deg := by
  ext i j
  fin_cases j <;>
    simp [glm.rotate, glm.normalize, glm.dot, Vec3.smul, rotateZM, h1,
      Matrix.mul_apply, Fin.sum_univ_four, Matrix.vecHead, Matrix.vecTail]

end GlmLemmas

/-! ### The local and the world matrix -/

section ParentLemmas

open Object3D

theorem GetParent_alive {R : Type} (h : Heap R) (n p : Ptr) (hp : GetParent h n = some p) :
    (∃ o, h n = some o) ∧ ∃ po, h p = some po := by
  unfold GetParent at hp
  cases hn : h n with
  | none => simp [hn] at hp
  | some o =>
    refine ⟨⟨o, rfl⟩, ?_⟩
    simp only [hn, lock] at hp
    cases hq : o.m_parent with
    | none => simp [hq] at hp
    | some q =>
      simp only [hq] at hp
      by_cases hs : (h q).isSome
      · simp only [hs, if_true, Option.some.injEq] at hp
        subst hp
        exact Option.isSome_iff_exists.mp hs
      · simp [hs] at hp

end ParentLemmas

section WorldMatrix

variable {R : Type} [Field R]

open Object3D

theorem GetWorldMatrix_root (ops : GlmOps R) (h : Heap R) (fuel : Nat) (n : Ptr)
    (o : Object3D R) (hn : h n = some o) (hp : GetParent h n = none) :
    GetWorldMatrix ops h (fuel + 1) n = some (o.GetModelMatrix ops) := by
  have hl : lock h o.m_parent = none := by simpa [GetParent, hn] using hp
  simp [GetWorldMatrix, hn, hl]

theorem GetWorldMatrix_child (ops : GlmOps R) (h : Heap R) (fuel : Nat) (n p : Ptr)
    (o : Object3D R) (W : Mat4 R) (hn : h n = some o) (hp : GetParent h n = some p)
    (hW : GetWorldMatrix ops h fuel p = some W) :
    GetWorldMatrix ops h (fuel + 1) n = some (W * o.GetModelMatrix ops) := by
  have hl : lock h o.m_parent = some p := by simpa [GetParent, hn] using hp
  simp [GetWorldMatrix, hn, hl, hW]

theorem GetWorldMatrix_mono (ops : GlmOps R) (h : Heap R) :
    ∀ (fuel : Nat) (n : Ptr) (W : Mat4 R), GetWorldMatrix ops h fuel n = some W →
      ∀ fuel2, fuel ≤ fuel2 → GetWorldMatrix ops h fuel2 n = some W := by
  intro fuel
  induction fuel with
  | zero => intro n W hW; simp [GetWorldMatrix] at hW
  | succ f ih =>
    intro n W hW fuel2 hle
    obtain ⟨g, rfl⟩ : ∃ g, fuel2 = g + 1 := ⟨fuel2 - 1, by omega⟩
    have hfg : f ≤ g := by omega
    unfold GetWorldMatrix at hW ⊢
    cases hn : h n with
    | none => simp [hn] at hW
    | some o =>
      simp only [hn] at hW ⊢
      cases hl : lock h o.m_parent with
      | none => simpa [hl] using hW
      | some p =>
        simp only [hl] at hW ⊢
        cases hp : GetWorldMatrix ops h f p with
        | none => simp [hp] at hW
        | some Wp =>
          rw [ih p Wp hp g hfg]
          simpa [hp] using hW

theorem GetWorldMatrix_chain_aux (ops : GlmOps R) (h : Heap R) :
    ∀ (rest : List Ptr) (a0 : Ptr) (W : Mat4 R) (fuel : Nat),
      GetWorldMatrix ops h fuel a0 = some W →
      List.Chain (fun a b => GetParent h b = some a) a0 rest →
      GetWorldMatrix ops h (fuel + rest.length) (rest.getLastD a0) =
        some (rest.foldl (fun M a => M * localMatrix ops h a) W) := by
  intro rest
  induction rest with
  | nil => intro a0 W fuel hW _; simpa using hW
  | cons b rest ih =>
    intro a0 W fuel hW hc
    rw [List.chain_cons] at hc
    obtain ⟨⟨ob, hb⟩, _⟩ := GetParent_alive h b a0 hc.1
    have hstep := GetWorldMatrix_child ops h fuel b a0 ob W hb hc.1 hW
    have := ih b (W * ob.GetModelMatrix ops) (fuel + 1) hstep hc.2
    have hloc : localMatrix ops h b = ob.GetModelMatrix ops := by simp [localMatrix, hb]
    simp only [List.length_cons, List.getLastD_cons, List.foldl_cons, hloc]
    rw [show fuel + (rest.length + 1) = fuel + 1 + rest.length by omega]
    exact this

/-- C1: a node without a live parent has its local matrix as world matrix; a
node with a live parent `p` has `world(p) * local(n)`; and along every parent
chain `a0, a1, ..., ak = n` that starts at a node without a live parent, with
fuel for the `k + 1` visits, the call returns
`local(a0) * local(a1) * ... * local(ak)`, multiplied from the left in this
order. -/
theorem GetWorldMatrix_composition (ops : GlmOps R) (h : Heap R) (fuel : Nat) (n : Ptr)
    (o : Object3D R) (hn : h n = some o) :
    (GetParent h n = none →
      GetWorldMatrix ops h (fuel + 1) n = some (o.GetModelMatrix ops)) ∧
    (∀ (p : Ptr) (W : Mat4 R), GetParent h n = some p →
      GetWorldMatrix ops h fuel p = some W →
      GetWorldMatrix ops h (fuel + 1) n = some (W * o.GetModelMatrix ops)) ∧
    (∀ (a0 : Ptr) (rest : List Ptr), GetParent h a0 = none →
      List.Chain (fun a b => GetParent h b = some a) a0 rest →
      rest.getLastD a0 = n → rest.length ≤ fuel →
      GetWorldMatrix ops h (fuel + 1) n =
        some (rest.foldl (fun M a => M * localMatrix ops h a) (localMatrix ops h a0))) := by
  refine ⟨GetWorldMatrix_root ops h fuel n o hn, ?_, ?_⟩
  · intro p W hp hW
    exact GetWorldMatrix_child ops h fuel n p o W hn hp hW
  · intro a0 rest hroot hc hlast hlen
    have halive : ∃ o0, h a0 = some o0 := by
      cases rest with
      | nil => exact ⟨o, by simpa [← hlast] using hn⟩
      | cons b rest =>
        rw [List.chain_cons] at hc
        exact (GetParent_alive h b a0 hc.1).2
    obtain ⟨o0, h0⟩ := halive
    have hW0 := GetWorldMatrix_root ops h 0 a0 o0 h0 hroot
    have hloc : localMatrix ops h a0 = o0.GetModelMatrix ops := by simp [localMatrix, h0]
    have := GetWorldMatrix_chain_aux ops h rest a0 _ _ hW0 hc
    rw [hlast] at this
    rw [hloc]
    exact GetWorldMatrix_mono ops h _ n _ this (fuel + 1) (by omega)

/-- C3: the local matrix is the product
`translate(position) * rotateX(rotation.x) * rotateY(rotation.y) *
rotateZ(rotation.z) * scale(scale)`, for every position, rotation and scale. -/
theorem GetModelMatrix_eq_product (ops : GlmOps R) (h1 : ops.inversesqrt 1 = 1)
    (o : Object3D R) :
    o.GetModelMatrix ops =
      translateM o.position * rotateXM ops o.rotation.x * rotateYM ops o.rotation.y *
        rotateZM ops o.rotation.z * scaleM o.scale := by
  simp only [Object3D.GetModelMatrix, glm_translate_eq_mul, glm_scale_eq_mul,
    glm_rotate_x ops h1, glm_rotate_y ops h1, glm_rotate_z ops h1, one_mul]

theorem rotateXM_zero (ops : GlmOps R) (hc : ops.cos (ops.radians 0) = 1)
    (hs : ops.sin (ops.radians 0) = 0) : rotateXM ops 0 = 1 := by
  ext i j
  fin_cases i <;> fin_cases j <;> simp [rotateXM, hc, hs, Matrix.one_apply, Matrix.vecHead, Matrix.vecTail]

theorem rotateYM_zero (ops : GlmOps R) (hc : ops.cos (ops.radians 0) = 1)
    (hs : ops.sin (ops.radians 0) = 0) : rotateYM ops 0 = 1 := by
  ext i j
  fin_cases i <;> fin_cases j <;> simp [rotateYM, hc, hs, Matrix.one_apply, Matrix.vecHead, Matrix.vecTail]

theorem rotateZM_zero (ops : GlmOps R) (hc : ops.cos (ops.radians 0) = 1)
    (hs : ops.sin (ops.radians 0) = 0) : rotateZM ops 0 = 1 := by
  ext i j
  fin_cases i <;> fin_cases j <;> simp [rotateZM, hc, hs, Matrix.one_apply, Matrix.vecHead, Matrix.vecTail]

theorem floorMarkerScene_marker :
    floorMarkerScene R 1 = some { markerNode R with m_parent := some 0 } := rfl

theorem floorMarkerScene_floor :
    floorMarkerScene R 0 = some { floorNode R with m_children := [1] } := rfl

/-- The world matrix of the marker in the scenario: its translation is the
parent's translation plus the child's offset scaled by the parent's scale. -/
theorem marker_world_translation (ops : GlmOps R) (hc : ops.cos (ops.radians 0) = 1)
    (hs : ops.sin (ops.radians 0) = 0) (h1 : ops.inversesqrt 1 = 1) (fuel : Nat) :
    (GetWorldMatrix ops (floorMarkerScene R) (fuel + 2) 1).map glm.translation =
      some ⟨0, -1 + 1 / 10, 0⟩ := by
  have hroot : GetWorldMatrix ops (floorMarkerScene R) (fuel + 1) 0 = _ :=
    GetWorldMatrix_root ops _ fuel 0 _ floorMarkerScene_floor rfl
  have hchild := GetWorldMatrix_child ops _ (fuel + 1) 1 0 _ _ floorMarkerScene_marker
    rfl hroot
  rw [hchild, GetModelMatrix_eq_product ops h1, GetModelMatrix_eq_product ops h1]
  simp [floorNode, markerNode, Object3D.new, Object3D.SetPosition, Object3D.SetScale,
    Vec3.splat, rotateXM_zero ops hc hs, rotateYM_zero ops hc hs, rotateZM_zero ops hc hs,
    glm.translation, translateM, scaleM, Matrix.mul_apply, Fin.sum_univ_four,
    Matrix.vecHead, Matrix.vecTail]
  ring

/-- C2, as amended: in the floor and marker scenario the translation part of
the marker's world matrix is (0, -0.9, 0): the marker's local offset of 1 along
Y is scaled by the floor's Y scale 0.1 and then moved by the floor's position
(0, -1, 0). -/
theorem marker_world_translation_scaled [CharZero R] (ops : GlmOps R)
    (hc : ops.cos (ops.radians 0) = 1) (hs : ops.sin (ops.radians 0) = 0)
    (h1 : ops.inversesqrt 1 = 1) (fuel : Nat) :
    (GetWorldMatrix ops (floorMarkerScene R) (fuel + 2) 1).map glm.translation =
      some ⟨0, -(9 / 10), 0⟩ := by
  rw [marker_world_translation ops hc hs h1 fuel]
  norm_num

end WorldMatrix

section RealScenario

open Object3D

/-- Witness of C2 as amended, over the real numbers with the real cosine and
sine, `radians d = d * (π / 180)` and `inversesqrt x = (√x)⁻¹`. -/
theorem marker_world_translation_scaled_real :
    (GetWorldMatrix
        (GlmOps.mk Real.cos Real.sin (fun d => d * (Real.pi / 180)) fun x => (Real.sqrt x)⁻¹)
        (floorMarkerScene ℝ) 2 1).map glm.translation = some ⟨0, -(9 / 10), 0⟩ :=
  marker_world_translation_scaled
    (GlmOps.mk Real.cos Real.sin (fun d => d * (Real.pi / 180)) fun x => (Real.sqrt x)⁻¹)
    (by simp) (by simp) (by simp) 0

/-- C2 fails as stated: over the real numbers the translation part of the
marker's world matrix is not (0, 0, 0). -/
theorem marker_world_translation_ne_zero :
    (GetWorldMatrix
        (GlmOps.mk Real.cos Real.sin (fun d => d * (Real.pi / 180)) fun x => (Real.sqrt x)⁻¹)
        (floorMarkerScene ℝ) 2 1).map glm.translation ≠ some ⟨0, 0, 0⟩ := by
  rw [marker_world_translation
    (GlmOps.mk Real.cos Real.sin (fun d => d * (Real.pi / 180)) fun x => (Real.sqrt x)⁻¹)
    (by simp) (by simp) (by simp) 0]
  intro hv
  have hy := congrArg Vec3.y (Option.some.inj hv)
  norm_num at hy

/-- Witness of C1: the marker's world matrix in the scenario is
`local(floor) * local(marker)`. -/
theorem GetWorldMatrix_composition_scenario :
    GetWorldMatrix
        (GlmOps.mk Real.cos Real.sin (fun d => d * (Real.pi / 180)) fun x => (Real.sqrt x)⁻¹)
        (floorMarkerScene ℝ) 2 1 =
      some ([1].foldl
        (fun M a => M * localMatrix
          (GlmOps.mk Real.cos Real.sin (fun d => d * (Real.pi / 180)) fun x => (Real.sqrt x)⁻¹)
          (floorMarkerScene ℝ) a)
        (localMatrix
          (GlmOps.mk Real.cos Real.sin (fun d => d * (Real.pi / 180)) fun x => (Real.sqrt x)⁻¹)
          (floorMarkerScene ℝ) 0)) :=
  (GetWorldMatrix_composition _ (floorMarkerScene ℝ) 1 1 _ floorMarkerScene_marker).2.2
    0 [1] rfl (List.Chain.cons rfl List.Chain.nil) rfl (Nat.le_refl 1)

/-- Witness of C3: the local matrix of the floor of the scenario. -/
theorem GetModelMatrix_eq_product_floor :
    (floorNode ℝ).GetModelMatrix
        (GlmOps.mk Real.cos Real.sin (fun d => d * (Real.pi / 180)) fun x => (Real.sqrt x)⁻¹) =
      translateM ⟨0, -1, 0⟩ *
        rotateXM (GlmOps.mk Real.cos Real.sin (fun d => d * (Real.pi / 180))
          fun x => (Real.sqrt x)⁻¹) 0 *
        rotateYM (GlmOps.mk Real.cos Real.sin (fun d => d * (Real.pi / 180))
          fun x => (Real.sqrt x)⁻¹) 0 *
        rotateZM (GlmOps.mk Real.cos Real.sin (fun d => d * (Real.pi / 180))
          fun x => (Real.sqrt x)⁻¹) 0 *
        scaleM ⟨10, 1 / 10, 10⟩ :=
  GetModelMatrix_eq_product _ (by simp) (floorNode ℝ)

end RealScenario

/-! ### Hierarchy -/

section Hierarchy

variable {R : Type}

open Object3D

theorem nameEq_modifyAt (h : Heap R) (p : Ptr) (f : Object3D R → Object3D R)
    (hf : ∀ o, (f o).name = o.name) (n : String) (c : Ptr) :
    nameEq (modifyAt h p f) n c = nameEq h n c := by
  unfold nameEq modifyAt
  by_cases hc : c = p
  · subst hc
    cases h c <;> simp [hf]
  · simp [hc]

theorem modifyAt_same (h : Heap R) (p : Ptr) (f : Object3D R → Object3D R)
    (o : Object3D R) (hp : h p = some o) : modifyAt h p f p = some (f o) := by
  simp [modifyAt, hp]

theorem nameEq_RemoveChild (h : Heap R) (this : Ptr) (k n : String) (c : Ptr) :
    nameEq (RemoveChild h this k) n c = nameEq h n c := by
  unfold RemoveChild
  apply nameEq_modifyAt
  intro _
  rfl

theorem nameEq_AddChild (h : Heap R) (this : Ptr) (child : Option Ptr) (n : String)
    (c : Ptr) : nameEq (AddChild h this child) n c = nameEq h n c := by
  cases child with
  | none => rfl
  | some d =>
    simp only [AddChild, SetParent]
    rw [nameEq_modifyAt, nameEq_modifyAt] <;> intro _ <;> rfl

theorem find?_congr_mem {α : Type} (p q : α → Bool) (l : List α)
    (hpq : ∀ a ∈ l, p a = q a) : l.find? p = l.find? q := by
  induction l with
  | nil => rfl
  | cons a l ih =>
    have ha : p a = q a := hpq a (List.mem_cons_self a l)
    have hl : l.find? p = l.find? q := ih fun b hb => hpq b (List.mem_cons_of_mem a hb)
    simp [List.find?_cons, ha, hl]

theorem length_filter_not_add_countP {α : Type} (p : α → Bool) (l : List α) :
    (l.filter fun c => !p c).length + l.countP p = l.length := by
  induction l with
  | nil => rfl
  | cons a l ih =>
    cases hp : p a <;> simp [List.filter_cons, List.countP_cons, hp] <;> omega

/-- C4: after `RemoveChild(n)` the lookup `GetChild(n)` finds nothing, no
remaining child is named `n`, the child list is shorter by exactly the number
of children that were named `n`, and when no child is named `n` nothing
changes. -/
theorem RemoveChild_removes_all (h : Heap R) (this : Ptr) (o : Object3D R) (n : String)
    (hthis : h this = some o) :
    GetChild (RemoveChild h this n) this n = none ∧
    (∃ o2, RemoveChild h this n this = some o2 ∧
      (∀ c ∈ o2.m_children, nameEq (RemoveChild h this n) n c = false) ∧
      o2.m_children.length + o.m_children.countP (nameEq h n) = o.m_children.length) ∧
    ((∀ c ∈ o.m_children, nameEq h n c = false) → RemoveChild h this n = h) := by
  have hnew : RemoveChild h this n this =
      some { o with m_children := o.m_children.filter fun child => !nameEq h n child } :=
    modifyAt_same h this _ o hthis
  refine ⟨?_, ⟨_, hnew, ?_, ?_⟩, ?_⟩
  · simp only [GetChild, hnew, List.find?_eq_none, List.mem_filter]
    intro c hc
    rw [nameEq_RemoveChild]
    simpa using hc.2
  · intro c hc
    rw [nameEq_RemoveChild]
    simpa using (List.mem_filter.mp hc).2
  · exact length_filter_not_add_countP (nameEq h n) o.m_children
  · intro hno
    funext q
    by_cases hq : q = this
    · subst hq
      rw [hnew, hthis]
      have hf : (o.m_children.filter fun child => !nameEq h n child) = o.m_children := by
        rw [List.filter_eq_self]
        intro c hc
        simp [hno c hc]
      rw [hf]
    · simp [RemoveChild, modifyAt, hq]

/-- C5 fails on the code: after `floor->AddChild(marker)` and
`floor->RemoveChild("marker")` the marker is no longer a child of the floor,
yet `GetParent` on the marker still returns the floor. -/
theorem RemoveChild_keeps_back_reference :
    GetChild (RemoveChild (floorMarkerScene ℚ) 0 "marker") 0 "marker" = none ∧
    GetParent (RemoveChild (floorMarkerScene ℚ) 0 "marker") 1 = some 0 := by
  constructor <;> rfl

/-- C6: `AddChild(null)` changes nothing; `P.AddChild(C)` makes `P` the parent
of `C` and appends `C` to the child list of `P`; afterwards `GetChild(C.name)`
returns a node named `C.name`, and it returns `C` when no earlier child had
that name. -/
theorem AddChild_appends (h : Heap R) (P C : Ptr) (po co : Object3D R)
    (hP : h P = some po) (hC : h C = some co) :
    AddChild h P none = h ∧
    GetParent (AddChild h P (some C)) C = some P ∧
    (∃ po2, AddChild h P (some C) P = some po2 ∧
      po2.m_children = po.m_children ++ [C]) ∧
    (∃ r ro, GetChild (AddChild h P (some C)) P co.name = some r ∧
      AddChild h P (some C) r = some ro ∧ ro.name = co.name) ∧
    ((∀ c ∈ po.m_children, nameEq h co.name c = false) →
      GetChild (AddChild h P (some C)) P co.name = some C) := by
  have h1C : SetParent h C (some P) C = some { co with m_parent := some P } :=
    modifyAt_same h C _ co hC
  obtain ⟨p1, h1P, hp1c, hp1n⟩ : ∃ p1, SetParent h C (some P) P = some p1 ∧
      p1.m_children = po.m_children ∧ p1.name = po.name := by
    by_cases hPC : P = C
    · subst hPC
      rw [hP] at hC
      cases hC
      exact ⟨_, h1C, rfl, rfl⟩
    · exact ⟨po, by simp [SetParent, modifyAt, hPC, hP], rfl, rfl⟩
  have h2P : AddChild h P (some C) P =
      some { p1 with m_children := p1.m_children ++ [C] } :=
    modifyAt_same _ P _ p1 h1P
  obtain ⟨c2, h2C, hc2p, hc2n⟩ : ∃ c2, AddChild h P (some C) C = some c2 ∧
      c2.m_parent = some P ∧ c2.name = co.name := by
    by_cases hCP : C = P
    · subst hCP
      rw [h1C] at h1P
      cases h1P
      exact ⟨_, h2P, rfl, rfl⟩
    · refine ⟨{ co with m_parent := some P }, ?_, rfl, rfl⟩
      simp only [AddChild, modifyAt, hCP, if_false]
      exact h1C
  have hnameC : nameEq (AddChild h P (some C)) co.name C = true := by
    simp [nameEq, h2C, hc2n]
  have hfind : ∀ r, (po.m_children ++ [C]).find?
      (fun child => nameEq (AddChild h P (some C)) co.name child) = some r →
      nameEq (AddChild h P (some C)) co.name r = true := fun r hr => List.find?_some hr
  refine ⟨rfl, ?_, ⟨_, h2P, by simp [hp1c]⟩, ?_, ?_⟩
  · simp [GetParent, h2C, hc2p, lock, h2P]
  · have hex : ∃ r, GetChild (AddChild h P (some C)) P co.name = some r := by
      simp only [GetChild, h2P, hp1c]
      cases hf : (po.m_children ++ [C]).find?
          (fun child => nameEq (AddChild h P (some C)) co.name child) with
      | some r => exact ⟨r, rfl⟩
      | none =>
        rw [List.find?_eq_none] at hf
        exact absurd hnameC (hf C (by simp))
    obtain ⟨r, hr⟩ := hex
    have hrn : nameEq (AddChild h P (some C)) co.name r = true := by
      simp only [GetChild, h2P, hp1c] at hr
      exact hfind r hr
    unfold nameEq at hrn
    cases hro : AddChild h P (some C) r with
    | none => simp [hro] at hrn
    | some ro =>
      refine ⟨r, ro, hr, hro, ?_⟩
      simpa [hro] using hrn
  · intro hno
    simp only [GetChild, h2P, hp1c, List.find?_append]
    have hnone : po.m_children.find?
        (fun child => nameEq (AddChild h P (some C)) co.name child) = none := by
      rw [List.find?_eq_none]
      intro c hc
      rw [nameEq_AddChild]
      simp [hno c hc]
    rw [hnone]
    simp [List.find?_cons, hnameC]

/-- C7: `GetChild(n)` returns `c` exactly when `c` is the first entry of the
direct child list whose name is `n`; it returns the null pointer exactly when
no direct child is named `n`; and its result depends on nothing but the child
list and the names of the direct children, so no deeper descendant is
consulted. -/
theorem GetChild_first_direct (h : Heap R) (this : Ptr) (o : Object3D R) (n : String)
    (hthis : h this = some o) :
    (∀ c, GetChild h this n = some c ↔
      ∃ pre post, o.m_children = pre ++ c :: post ∧ nameEq h n c = true ∧
        ∀ x ∈ pre, nameEq h n x = false) ∧
    (GetChild h this n = none ↔ ∀ c ∈ o.m_children, nameEq h n c = false) ∧
    (∀ (h2 : Heap R) (o2 : Object3D R), h2 this = some o2 →
      o2.m_children = o.m_children →
      (∀ c ∈ o.m_children, nameEq h2 n c = nameEq h n c) →
      GetChild h2 this n = GetChild h this n) := by
  refine ⟨?_, ?_, ?_⟩
  · intro c
    simp only [GetChild, hthis, List.find?_eq_some]
    constructor
    · rintro ⟨hc, pre, post, hl, hpre⟩
      exact ⟨pre, post, hl, hc, fun x hx => by simpa using hpre x hx⟩
    · rintro ⟨pre, post, hl, hc, hpre⟩
      exact ⟨hc, pre, post, hl, fun x hx => by simp [hpre x hx]⟩
  · simp [GetChild, hthis]
  · intro h2 o2 h2this hch hnames
    simp only [GetChild, hthis, h2this, hch]
    exact find?_congr_mem _ _ o.m_children hnames

end Hierarchy

/-! ### Rendering -/

theorem RenderChildren_append {R : Type}
    (render : Ptr → Mat4 R → ShaderManager R → Option (ShaderManager R))
    (hr : ∀ c M s, render c M s = (render c M []).map fun t => s ++ t) :
    ∀ (cs : List Ptr) (M : Mat4 R) (s : ShaderManager R),
      Object3D.RenderChildren render cs M s =
        (cs.mapM fun c => render c M []).map fun ts => s ++ ts.flatten := by
  intro cs
  induction cs with
  | nil =>
    intro M s
    rw [Object3D.RenderChildren, List.mapM_nil]
    simp
  | cons c cs ih =>
    intro M s
    rw [Object3D.RenderChildren, hr c M s, List.mapM_cons]
    cases hc : render c M [] with
    | none => rfl
    | some t =>
      simp only [Option.map_some', ih M (s ++ t)]
      cases cs.mapM fun c => render c M [] with
      | none => rfl
      | some ts => simp

section Rendering

variable {R : Type} [Field R]

open Object3D

theorem RenderParent_append (ops : GlmOps R) (h : Heap R) :
    ∀ (fuel : Nat) (n : Ptr) (M : Mat4 R) (s : ShaderManager R),
      RenderParent ops h fuel n M s =
        (RenderParent ops h fuel n M []).map fun t => s ++ t := by
  intro fuel
  induction fuel with
  | zero => intro n M s; rfl
  | succ f ih =>
    intro n M s
    unfold RenderParent
    cases hn : h n with
    | none => rfl
    | some o =>
      cases hv : o.visible with
      | false => simp [hv]
      | true =>
        simp only [hv, Bool.not_true, Bool.false_eq_true, if_false]
        rw [RenderChildren_append _ ih, RenderChildren_append _ ih]
        cases o.m_children.mapM fun c => RenderParent ops h f c (M * o.GetModelMatrix ops) [] with
        | none => rfl
        | some ts =>
          simp [ShaderManager.setMat4Value, ShaderManager.setVec3Value,
            ShaderManager.setFloatValue, ShaderManager.setBoolValue]

/-- C8: on a node whose `visible` flag is false both `Render` overloads
return with the shader sink exactly as they received it, whatever the flags of
the nodes below it: no call reaches the sink for the node or its subtree. -/
theorem Render_invisible_no_calls (ops : GlmOps R) (h : Heap R) (n : Ptr)
    (o : Object3D R) (hn : h n = some o) (hv : o.visible = false) :
    (∀ (fuel : Nat) (shader : ShaderManager R),
      Render ops h fuel n shader = some shader) ∧
    (∀ (fuel : Nat) (M : Mat4 R) (shader : ShaderManager R),
      RenderParent ops h (fuel + 1) n M shader = some shader) := by
  constructor
  · intro fuel shader
    simp [Render, hn, hv]
  · intro fuel M shader
    simp [RenderParent, hn, hv]

/-- C9: on a visible node `Render(sink, M)` appends to the sink, in this
order, `model = M * local`, `material.ambient = color * 0.1`,
`material.diffuse = color`, `material.specular = color * 0.5`,
`material.shininess`, `useTexture`, and then what each child, in child-list
order, emits when rendered with parent matrix `M * local`; it fails exactly
when the rendering of a child fails. -/
theorem RenderParent_visible_calls (ops : GlmOps R) (h : Heap R) (fuel : Nat) (n : Ptr)
    (o : Object3D R) (M : Mat4 R) (shader : ShaderManager R) (hn : h n = some o)
    (hv : o.visible = true) :
    RenderParent ops h (fuel + 1) n M shader =
      (o.m_children.mapM fun c =>
          RenderParent ops h fuel c (M * o.GetModelMatrix ops) []).map fun ts =>
        shader ++
          [ShaderCall.mat4 "model" (M * o.GetModelMatrix ops),
            ShaderCall.vec3 "material.ambient" (o.color.smul (1 / 10)),
            ShaderCall.vec3 "material.diffuse" o.color,
            ShaderCall.vec3 "material.specular" (o.color.smul (1 / 2)),
            ShaderCall.float "material.shininess" o.shininess,
            ShaderCall.bool "useTexture" o.useTexture] ++
          ts.flatten := by
  rw [RenderParent]
  simp only [hn, hv, Bool.not_true, Bool.false_eq_true, if_false]
  rw [RenderChildren_append _ (RenderParent_append ops h fuel)]
  cases o.m_children.mapM fun c => RenderParent ops h fuel c (M * o.GetModelMatrix ops) [] with
  | none => rfl
  | some ts =>
    simp [ShaderManager.setMat4Value, ShaderManager.setVec3Value,
      ShaderManager.setFloatValue, ShaderManager.setBoolValue]

end Rendering

/-! ### Scene registry -/

section Registry

variable {R : Type}

open Object3D

/-- C10: `AddObject(null)` leaves the registry as it is; after `AddObject(o)`
the lookup `GetObject(o.name)` returns an object named `o.name`, and it
returns `o`, whose fields `AddObject` does not write, when no object
registered before has that name. -/
theorem AddObject_then_GetObject (h : Heap R) (sm : SceneManager R) (o : Ptr)
    (oo : Object3D R) (ho : h o = some oo) :
    sm.AddObject none = sm ∧
    (∃ r ro, SceneManager.GetObject h (sm.AddObject (some o)) oo.name = some r ∧
      h r = some ro ∧ ro.name = oo.name) ∧
    ((∀ q ∈ sm.m_objects, nameEq h oo.name q = false) →
      SceneManager.GetObject h (sm.AddObject (some o)) oo.name = some o ∧
        h o = some oo) := by
  have hname : nameEq h oo.name o = true := by simp [nameEq, ho]
  refine ⟨rfl, ?_, ?_⟩
  · cases hf : SceneManager.GetObject h (sm.AddObject (some o)) oo.name with
    | none =>
      simp only [SceneManager.GetObject, SceneManager.AddObject, List.find?_eq_none] at hf
      exact absurd hname (hf o (by simp))
    | some r =>
      have hr : nameEq h oo.name r = true := List.find?_some hf
      unfold nameEq at hr
      cases hro : h r with
      | none => simp [hro] at hr
      | some ro => exact ⟨r, ro, rfl, hro, by simpa [hro] using hr⟩
  · intro hno
    refine ⟨?_, ho⟩
    simp only [SceneManager.GetObject, SceneManager.AddObject, List.find?_append]
    have hnone : sm.m_objects.find? (fun obj => nameEq h oo.name obj) = none := by
      rw [List.find?_eq_none]
      intro q hq
      simp [hno q hq]
    rw [hnone]
    simp [List.find?_cons, hname]

end Registry

/-! ### The theorems on concrete scenes -/

section Scenes

open Object3D

/-- Witness of C4: removing "twin" from the parent of the twin scene. -/
theorem RemoveChild_removes_all_twins :
    GetChild (RemoveChild (twinScene ℚ) 0 "twin") 0 "twin" = none ∧
    (∃ o2, RemoveChild (twinScene ℚ) 0 "twin" 0 = some o2 ∧
      (∀ c ∈ o2.m_children, nameEq (RemoveChild (twinScene ℚ) 0 "twin") "twin" c = false) ∧
      o2.m_children.length + [1, 2, 3].countP (nameEq (twinScene ℚ) "twin") = 3) ∧
    ((∀ c ∈ [1, 2, 3], nameEq (twinScene ℚ) "twin" c = false) →
      RemoveChild (twinScene ℚ) 0 "twin" = twinScene ℚ) :=
  RemoveChild_removes_all (twinScene ℚ) 0
    { (Object3D.new "parent" : Object3D ℚ) with m_children := [1, 2, 3] } "twin" rfl

/-- Witness of C6: attaching the marker to the floor. -/
theorem AddChild_appends_marker :
    GetParent (AddChild (detachedScene ℚ) 0 (some 1)) 1 = some 0 ∧
    GetChild (AddChild (detachedScene ℚ) 0 (some 1)) 0 "marker" = some 1 :=
  ⟨(AddChild_appends (detachedScene ℚ) 0 1 (floorNode ℚ) (markerNode ℚ) rfl rfl).2.1,
    (AddChild_appends (detachedScene ℚ) 0 1 (floorNode ℚ) (markerNode ℚ) rfl rfl).2.2.2.2
      (by simp [floorNode, Object3D.new, Object3D.SetPosition, Object3D.SetScale])⟩

/-- Witness of C7: in the twin scene "deep" is a grandchild of the parent, and
the lookup from the parent does not find it. -/
theorem GetChild_first_direct_deep :
    GetChild (twinScene ℚ) 0 "deep" = none :=
  (GetChild_first_direct (twinScene ℚ) 0
    { (Object3D.new "parent" : Object3D ℚ) with m_children := [1, 2, 3] } "deep" rfl).2.1.mpr
    (by
      intro c hc
      simp only [List.mem_cons, List.mem_singleton, List.not_mem_nil, or_false] at hc
      rcases hc with rfl | rfl | rfl <;> rfl)

/-- Witness of C10: registering the floor in an empty registry. -/
theorem AddObject_then_GetObject_floor :
    SceneManager.GetObject (detachedScene ℚ)
        ((SceneManager.new : SceneManager ℚ).AddObject (some 0)) "floor" = some 0 ∧
      detachedScene ℚ 0 = some (floorNode ℚ) :=
  (AddObject_then_GetObject (detachedScene ℚ) SceneManager.new 0 (floorNode ℚ) rfl).2.2
    (by simp [SceneManager.new])

/-- Witness of C8: with the floor hidden neither overload emits a call, though
the marker below the floor is visible. -/
theorem Render_invisible_no_calls_hidden_floor :
    Render
        (GlmOps.mk Real.cos Real.sin (fun d => d * (Real.pi / 180)) fun x => (Real.sqrt x)⁻¹)
        (hiddenFloorScene ℝ) 2 0 [] = some [] ∧
    RenderParent
        (GlmOps.mk Real.cos Real.sin (fun d => d * (Real.pi / 180)) fun x => (Real.sqrt x)⁻¹)
        (hiddenFloorScene ℝ) 2 0 1 [] = some [] :=
  ⟨(Render_invisible_no_calls _ (hiddenFloorScene ℝ) 0 _ rfl rfl).1 2 [],
    (Render_invisible_no_calls _ (hiddenFloorScene ℝ) 0 _ rfl rfl).2 1 1 []⟩

/-- Witness of C9: rendering the visible floor with the identity as parent
matrix emits the six calls of the floor and then the six calls of the marker,
whose parent matrix is the floor's world matrix. -/
theorem RenderParent_visible_calls_floor :
    RenderParent
        (GlmOps.mk Real.cos Real.sin (fun d => d * (Real.pi / 180)) fun x => (Real.sqrt x)⁻¹)
        (floorMarkerScene ℝ) 2 0 1 [] =
      some
        [ShaderCall.mat4 "model" (1 * (floorNode ℝ).GetModelMatrix
            (GlmOps.mk Real.cos Real.sin (fun d => d * (Real.pi / 180))
              fun x => (Real.sqrt x)⁻¹)),
          ShaderCall.vec3 "material.ambient" ((Vec3.splat 1).smul (1 / 10)),
          ShaderCall.vec3 "material.diffuse" (Vec3.splat 1),
          ShaderCall.vec3 "material.specular" ((Vec3.splat 1).smul (1 / 2)),
          ShaderCall.float "material.shininess" 32,
          ShaderCall.bool "useTexture" false,
          ShaderCall.mat4 "model" (1 * (floorNode ℝ).GetModelMatrix
            (GlmOps.mk Real.cos Real.sin (fun d => d * (Real.pi / 180))
              fun x => (Real.sqrt x)⁻¹) * (markerNode ℝ).GetModelMatrix
            (GlmOps.mk Real.cos Real.sin (fun d => d * (Real.pi / 180))
              fun x => (Real.sqrt x)⁻¹)),
          ShaderCall.vec3 "material.ambient" ((Vec3.splat 1).smul (1 / 10)),
          ShaderCall.vec3 "material.diffuse" (Vec3.splat 1),
          ShaderCall.vec3 "material.specular" ((Vec3.splat 1).smul (1 / 2)),
          ShaderCall.float "material.shininess" 32,
          ShaderCall.bool "useTexture" false] :=
  (RenderParent_visible_calls _ (floorMarkerScene ℝ) 1 0 _ 1 [] floorMarkerScene_floor
    rfl).trans rfl

end Scenes

/-! ### Removal from the registry -/

section RegistryRemoval

variable {R : Type}

open Object3D

/-- C11: after `RemoveObject(n)` the lookup `GetObject(n)` returns the null
pointer; the object list that remains is the old one with entries left out
(so the order of what remains is the old order), it holds exactly the old
entries not named `n`, each as often as before; lights and ambient light are
untouched. -/
theorem RemoveObject_removes_all (h : Heap R) (sm : SceneManager R) (n : String) :
    SceneManager.GetObject h (SceneManager.RemoveObject h sm n) n = none ∧
    (SceneManager.RemoveObject h sm n).m_objects.Sublist sm.m_objects ∧
    (∀ q, q ∈ (SceneManager.RemoveObject h sm n).m_objects ↔
      q ∈ sm.m_objects ∧ nameEq h n q = false) ∧
    (∀ q, nameEq h n q = false →
      (SceneManager.RemoveObject h sm n).m_objects.count q = sm.m_objects.count q) ∧
    (SceneManager.RemoveObject h sm n).m_lights = sm.m_lights ∧
    (SceneManager.RemoveObject h sm n).m_ambientLight = sm.m_ambientLight := by
  refine ⟨?_, ?_, ?_, ?_, rfl, rfl⟩
  · simp only [SceneManager.GetObject, SceneManager.RemoveObject, List.find?_eq_none,
      List.mem_filter]
    intro q hq
    simpa using hq.2
  · exact List.filter_sublist _
  · intro q
    simp [SceneManager.RemoveObject, List.mem_filter]
  · intro q hq
    simp only [SceneManager.RemoveObject]
    rw [List.count_filter]
    simp [hq]

end RegistryRemoval

/-! ### Update -/

section UpdateTraversal

variable {R : Type}

open Object3D

theorem UpdateChildren_visits (h : Heap R)
    (update : Ptr → UpdateState R → Option (UpdateState R)) (P : Ptr → Prop)
    (hu : ∀ c, P c → ∀ log, ∃ log2, update c ⟨h, log⟩ = some ⟨h, log2⟩ ∧
      (∀ x ∈ log, x ∈ log2) ∧ ∀ m, IsDescendant h c m → m ∈ log2) :
    ∀ (cs : List Ptr), (∀ c ∈ cs, P c) → ∀ log,
      ∃ log2, UpdateChildren update cs ⟨h, log⟩ = some ⟨h, log2⟩ ∧
        (∀ x ∈ log, x ∈ log2) ∧ ∀ c ∈ cs, ∀ m, IsDescendant h c m → m ∈ log2 := by
  intro cs
  induction cs with
  | nil =>
    intro _ log
    exact ⟨log, rfl, fun x hx => hx, fun c hc => by simp at hc⟩
  | cons c cs ih =>
    intro hP log
    obtain ⟨log1, h1, hsub1, hdesc1⟩ := hu c (hP c (List.mem_cons_self c cs)) log
    obtain ⟨log2, h2, hsub2, hdesc2⟩ :=
      ih (fun d hd => hP d (List.mem_cons_of_mem c hd)) log1
    refine ⟨log2, ?_, fun x hx => hsub2 x (hsub1 x hx), ?_⟩
    · rw [UpdateChildren, h1]
      exact h2
    · intro d hd m hm
      rcases List.mem_cons.mp hd with rfl | hd
      · exact hsub2 m (hdesc1 m hm)
      · exact hdesc2 d hd m hm

theorem Update_visits (h : Heap R) (dt : R) :
    ∀ (depth fuel : Nat), depth ≤ fuel → ∀ n, WithinDepth h depth n → ∀ log,
      ∃ log2, Update fuel n dt ⟨h, log⟩ = some ⟨h, log2⟩ ∧
        (∀ x ∈ log, x ∈ log2) ∧ ∀ m, IsDescendant h n m → m ∈ log2 := by
  intro depth
  induction depth with
  | zero => intro fuel _ n hn; cases hn
  | succ d ih =>
    intro fuel hf n hn log
    obtain ⟨f, rfl⟩ : ∃ f, fuel = f + 1 := ⟨fuel - 1, by omega⟩
    cases hn with
    | node _ _ o ho hc =>
      obtain ⟨log2, h2, hsub, hdesc⟩ :=
        UpdateChildren_visits h (fun child => Update f child dt) (WithinDepth h d)
          (fun c hcd lg => ih f (by omega) c hcd lg) o.m_children hc (log ++ [n])
      refine ⟨log2, ?_, fun x hx => hsub x (by simp [hx]), ?_⟩
      · rw [Update]
        simp only [ho]
        exact h2
      · intro m hm
        rcases Relation.ReflTransGen.cases_head hm with rfl | ⟨c, hnc, hcm⟩
        · exact hsub _ (by simp)
        · obtain ⟨o2, ho2, hmem⟩ := hnc
          rw [ho] at ho2
          cases ho2
          exact hdesc c hmem m hcm

theorem UpdateObjects_eq_UpdateChildren (fuel : Nat) (dt : R) :
    ∀ (l : List Ptr) (st : UpdateState R),
      SceneManager.UpdateObjects fuel dt l st =
        UpdateChildren (fun child => Update fuel child dt) l st := by
  intro l
  induction l with
  | nil => intro st; rfl
  | cons a l ih =>
    intro st
    rw [SceneManager.UpdateObjects, UpdateChildren]
    cases Update fuel a dt st with
    | none => rfl
    | some st2 => exact ih st2

/-- C12: on a hierarchy of bounded depth, with fuel for that depth,
`Update(dt)` on a node returns, leaves the heap (hence every field of every
node) as it was, and has entered `Update` on the node and on every descendant,
whatever their `visible` flags; `SceneManager::Update` does the same for every
registered root and its descendants. -/
theorem Update_visits_all_changes_nothing (h : Heap R) (depth fuel : Nat) (dt : R)
    (hf : depth ≤ fuel) :
    (∀ n log, WithinDepth h depth n →
      ∃ log2, Update fuel n dt ⟨h, log⟩ = some ⟨h, log2⟩ ∧
        (∀ x ∈ log, x ∈ log2) ∧ ∀ m, IsDescendant h n m → m ∈ log2) ∧
    (∀ (sm : SceneManager R) log, (∀ r ∈ sm.m_objects, WithinDepth h depth r) →
      ∃ log2, SceneManager.Update fuel sm dt ⟨h, log⟩ = some ⟨h, log2⟩ ∧
        (∀ x ∈ log, x ∈ log2) ∧
        ∀ r ∈ sm.m_objects, ∀ m, IsDescendant h r m → m ∈ log2) := by
  constructor
  · intro n log hn
    exact Update_visits h dt depth fuel hf n hn log
  · intro sm log hroots
    rw [SceneManager.Update, UpdateObjects_eq_UpdateChildren]
    exact UpdateChildren_visits h (fun child => Update fuel child dt) (WithinDepth h depth)
      (fun c hcd lg => Update_visits h dt depth fuel hf c hcd lg) sm.m_objects hroots log

end UpdateTraversal

/-! ### The particle engine: one particle -/

section OneParticle

variable {R : Type} [LinearOrderedField R]

open ParticleSystem

theorem random_in_range (u : UnitDraw R) (min max : R) (h : min ≤ max) :
    min ≤ min + u.val * (max - min) ∧ min + u.val * (max - min) ≤ max := by
  have h0 := u.property.1
  have h1 := u.property.2
  constructor
  · nlinarith [mul_nonneg h0 (sub_nonneg.mpr h)]
  · nlinarith [mul_nonneg (sub_nonneg.mpr h1.le) (sub_nonneg.mpr h)]

theorem UpdateParticle_alpha (p : Particle R) (dt : R) :
    (UpdateParticle p dt).color.a = fadeAlpha ((p.life - dt) / p.maxLife) := by
  by_cases h : (p.life - dt) / p.maxLife < 3 / 10 <;> simp [UpdateParticle, fadeAlpha, h]

theorem UpdateParticle_life (p : Particle R) (dt : R) :
    (UpdateParticle p dt).life = p.life - dt ∧ (UpdateParticle p dt).maxLife = p.maxLife := by
  by_cases h : (p.life - dt) / p.maxLife < 3 / 10 <;> simp [UpdateParticle, h]

theorem fadeAlpha_mono (r1 r2 : R) (h0 : 0 < r2) (h : r2 ≤ r1) :
    fadeAlpha r2 ≤ fadeAlpha r1 := by
  unfold fadeAlpha
  by_cases h1 : r1 < 3 / 10
  · have h2 : r2 < 3 / 10 := lt_of_le_of_lt h h1
    rw [if_pos h1, if_pos h2]
    have hd : r2 / (3 / 10) ≤ r1 / (3 / 10) := by
      apply div_le_div_of_nonneg_right h
      norm_num
    have hr1 : 0 ≤ r1 := le_trans h0.le h
    have hq : 0 ≤ r2 / (3 / 10) := div_nonneg h0.le (by norm_num)
    exact mul_le_mul h hd hq hr1
  · rw [if_neg h1]
    by_cases h2 : r2 < 3 / 10
    · rw [if_pos h2]
      have hq : r2 / (3 / 10) ≤ 1 := by
        rw [div_le_one (by norm_num)]
        exact h2.le
      calc r2 * (r2 / (3 / 10)) ≤ r2 * 1 := mul_le_mul_of_nonneg_left hq h0.le
        _ = r2 := mul_one r2
        _ ≤ r1 := h
    · rw [if_neg h2]
      exact h

/-- C15: with `m_velocityMin ≤ m_velocityMax` in each component,
`m_lifeMin ≤ m_lifeMax` and `m_sizeMin ≤ m_sizeMax`, `CreateParticle(p)`
appends one particle at the end of the collection: its position is `p`, each
velocity component lies between the configured bounds, `maxLife` lies in
`[m_lifeMin, m_lifeMax]`, `life = maxLife`, `size` lies in
`[m_sizeMin, m_sizeMax]`, `rotation` in `[0, 360)`, `rotationSpeed` in
`[-180, 180]`, and acceleration and colour are the configured ones. -/
theorem CreateParticle_in_ranges (ps : ParticleSystem R) (pos : Vec3 R)
    (hvx : ps.m_velocityMin.x ≤ ps.m_velocityMax.x)
    (hvy : ps.m_velocityMin.y ≤ ps.m_velocityMax.y)
    (hvz : ps.m_velocityMin.z ≤ ps.m_velocityMax.z)
    (hl : ps.m_lifeMin ≤ ps.m_lifeMax) (hs : ps.m_sizeMin ≤ ps.m_sizeMax) :
    ∃ p : Particle R, (CreateParticle ps pos).m_particles = ps.m_particles ++ [p] ∧
      p.position = pos ∧
      (ps.m_velocityMin.x ≤ p.velocity.x ∧ p.velocity.x ≤ ps.m_velocityMax.x) ∧
      (ps.m_velocityMin.y ≤ p.velocity.y ∧ p.velocity.y ≤ ps.m_velocityMax.y) ∧
      (ps.m_velocityMin.z ≤ p.velocity.z ∧ p.velocity.z ≤ ps.m_velocityMax.z) ∧
      (ps.m_lifeMin ≤ p.maxLife ∧ p.maxLife ≤ ps.m_lifeMax) ∧
      p.life = p.maxLife ∧
      (ps.m_sizeMin ≤ p.size ∧ p.size ≤ ps.m_sizeMax) ∧
      (0 ≤ p.rotation ∧ p.rotation < 360) ∧
      (-180 ≤ p.rotationSpeed ∧ p.rotationSpeed ≤ 180) ∧
      p.acceleration = ps.m_acceleration ∧ p.color = ps.m_particleColor := by
  refine ⟨_, rfl, rfl, ?_, ?_, ?_, ?_, rfl, ?_, ⟨?_, ?_⟩, ?_, rfl, rfl⟩
  · exact random_in_range _ _ _ hvx
  · exact random_in_range _ _ _ hvy
  · exact random_in_range _ _ _ hvz
  · exact random_in_range _ _ _ hl
  · exact random_in_range _ _ _ hs
  · exact (random_in_range (ps.m_rng (ps.m_drawn + 1 + 1 + 1 + 1 + 1)) 0 360 (by norm_num)).1
  · have h1 := (ps.m_rng (ps.m_drawn + 1 + 1 + 1 + 1 + 1)).property.2
    show 0 + (ps.m_rng (ps.m_drawn + 1 + 1 + 1 + 1 + 1)).val * (360 - 0) < 360
    linarith
  · exact random_in_range _ (-180) 180 (by norm_num)

/-- C16: `UpdateParticle` sets `velocity' = velocity + acceleration * dt`,
`position' = position + velocity' * dt` with the velocity already updated,
`rotation' = rotation + rotationSpeed * dt`, `life' = life - dt` and
`color.a' = fadeAlpha (life' / maxLife)`; acceleration, `maxLife`, size,
`rotationSpeed` and the colour channels r, g, b are kept. A particle with
`maxLife = 1` stepped from life 1 by 0.95 gets alpha `0.05 * (0.05 / 0.3)`. -/
theorem UpdateParticle_integrates (p : Particle R) (dt : R) :
    (UpdateParticle p dt).velocity = p.velocity.add (p.acceleration.smul dt) ∧
    (UpdateParticle p dt).position =
      p.position.add ((p.velocity.add (p.acceleration.smul dt)).smul dt) ∧
    (UpdateParticle p dt).rotation = p.rotation + p.rotationSpeed * dt ∧
    (UpdateParticle p dt).life = p.life - dt ∧
    (UpdateParticle p dt).color.a = fadeAlpha ((p.life - dt) / p.maxLife) ∧
    (UpdateParticle p dt).acceleration = p.acceleration ∧
    (UpdateParticle p dt).maxLife = p.maxLife ∧
    (UpdateParticle p dt).size = p.size ∧
    (UpdateParticle p dt).rotationSpeed = p.rotationSpeed ∧
    (UpdateParticle p dt).color.r = p.color.r ∧
    (UpdateParticle p dt).color.g = p.color.g ∧
    (UpdateParticle p dt).color.b = p.color.b ∧
    (UpdateParticle { p with life := 1, maxLife := 1 } (19 / 20)).color.a =
      1 / 20 * (1 / 20 / (3 / 10)) := by
  refine ⟨?_, ?_, ?_, ?_, UpdateParticle_alpha p dt, ?_, ?_, ?_, ?_, ?_, ?_, ?_, ?_⟩
  case refine_12 =>
    rw [UpdateParticle_alpha]
    norm_num [fadeAlpha]
  all_goals
    by_cases h : (p.life - dt) / p.maxLife < 3 / 10 <;> simp [UpdateParticle, h]

/-- C17: for two integration steps on particles with the same `maxLife > 0`,
one ending at remaining life `maxLife - t1` and one at `maxLife - t2` with
`t1 < t2 < maxLife`, the alpha of the later one is not larger. -/
theorem alpha_nonincreasing (p1 p2 : Particle R) (dt1 dt2 t1 t2 : R)
    (hM : 0 < p1.maxLife) (hsame : p2.maxLife = p1.maxLife)
    (h1 : p1.life - dt1 = p1.maxLife - t1) (h2 : p2.life - dt2 = p1.maxLife - t2)
    (ht : t1 < t2) (ht2 : t2 < p1.maxLife) :
    (UpdateParticle p2 dt2).color.a ≤ (UpdateParticle p1 dt1).color.a := by
  rw [UpdateParticle_alpha, UpdateParticle_alpha, h1, h2, hsame]
  apply fadeAlpha_mono
  · exact div_pos (by linarith) hM
  · exact div_le_div_of_nonneg_right (by linarith) hM.le

end OneParticle

/-! ### The particle engine: the collection and the arrays -/

section ParticleLists

variable {R : Type} [LinearOrderedField R]

open ParticleSystem

theorem UpdateBuffers_fields (ops : GlmOps R) (ps : ParticleSystem R) :
    (UpdateBuffers ops ps).m_particles = ps.m_particles ∧
      (UpdateBuffers ops ps).m_drawn = ps.m_drawn ∧
      (UpdateBuffers ops ps).m_vertices = (fillBuffers ops ps.m_particles ([], [])).1 ∧
      (UpdateBuffers ops ps).m_colors = (fillBuffers ops ps.m_particles ([], [])).2 :=
  ⟨rfl, rfl, rfl, rfl⟩

theorem CreateParticle_appends (ps : ParticleSystem R) (pos : Vec3 R) :
    ∃ p, (CreateParticle ps pos).m_particles = ps.m_particles ++ [p] ∧
      (CreateParticle ps pos).m_drawn = ps.m_drawn + 7 ∧ p.life = p.maxLife :=
  ⟨_, rfl, rfl, rfl⟩

theorem iterate_appends (f : ParticleSystem R → ParticleSystem R)
    (hf : ∀ ps, ∃ p, (f ps).m_particles = ps.m_particles ++ [p] ∧
      (f ps).m_drawn = ps.m_drawn + 7 ∧ p.life = p.maxLife) (k : Nat) :
    ∀ ps : ParticleSystem R,
      ∃ fresh : List (Particle R), fresh.length = k ∧
        (f^[k] ps).m_particles = ps.m_particles ++ fresh ∧
        (f^[k] ps).m_drawn = ps.m_drawn + 7 * k ∧
        ∀ p ∈ fresh, p.life = p.maxLife := by
  induction k with
  | zero => intro ps; exact ⟨[], rfl, by simp, by simp, by simp⟩
  | succ k ih =>
    intro ps
    obtain ⟨p, hp, hd, hl⟩ := hf ps
    obtain ⟨fresh, hlen, hpart, hdrawn, hlife⟩ := ih (f ps)
    refine ⟨p :: fresh, by simp [hlen], ?_, ?_, ?_⟩
    · rw [Function.iterate_succ_apply, hpart, hp]
      simp
    · rw [Function.iterate_succ_apply, hdrawn, hd]
      ring
    · intro q hq
      rcases List.mem_cons.mp hq with rfl | hq
      · exact hl
      · exact hlife q hq

theorem fillBuffers_length (ops : GlmOps R) :
    ∀ (l : List (Particle R)) (vs : List (Vec3 R)) (cs : List (Vec4 R)),
      (fillBuffers ops l (vs, cs)).1.length = vs.length + 6 * l.length ∧
        (fillBuffers ops l (vs, cs)).2.length = cs.length + 6 * l.length := by
  intro l
  induction l with
  | nil => intro vs cs; simp [fillBuffers]
  | cons p l ih =>
    intro vs cs
    rw [fillBuffers]
    simp only [Function.iterate_succ, Function.iterate_zero, Function.comp_apply, id_eq]
    obtain ⟨h1, h2⟩ := ih
      (vs ++ [(quadCorners ops p).1] ++ [(quadCorners ops p).2.1] ++ [(quadCorners ops p).2.2.1]
        ++ [(quadCorners ops p).1] ++ [(quadCorners ops p).2.2.1] ++ [(quadCorners ops p).2.2.2])
      (cs ++ [p.color] ++ [p.color] ++ [p.color] ++ [p.color] ++ [p.color] ++ [p.color])
    constructor
    · rw [h1]
      simp only [List.length_append, List.length_cons, List.length_nil]
      omega
    · rw [h2]
      simp only [List.length_append, List.length_cons, List.length_nil]
      omega

end ParticleLists

/-! ### The particle engine: one frame -/

section Emission

variable {R : Type} [LinearOrderedField R] [FloorRing R]

open ParticleSystem

theorem Update_active (ops : GlmOps R) (ps : ParticleSystem R) (dt : R)
    (hact : ps.m_active = true) :
    Update ops ps dt =
      UpdateBuffers ops (RemoveDeadParticles
        { ((fun ps => Emit ps ps.m_position 1)^[(particlesToEmit ps dt).toNat]
            (RandomFloat ps 0 1).2) with
          m_particles :=
            ((fun ps => Emit ps ps.m_position 1)^[(particlesToEmit ps dt).toNat]
              (RandomFloat ps 0 1).2).m_particles.map
              fun particle => UpdateParticle particle dt }) := by
  simp only [Update, hact, Bool.not_true, Bool.false_eq_true, if_false]
  rfl

theorem Update_active_particles (ops : GlmOps R) (ps : ParticleSystem R) (dt : R)
    (hact : ps.m_active = true) :
    ∃ fresh : List (Particle R), fresh.length = (particlesToEmit ps dt).toNat ∧
      (∀ p ∈ fresh, p.life = p.maxLife) ∧
      (Update ops ps dt).m_particles =
        ((ps.m_particles ++ fresh).map fun p => UpdateParticle p dt).filter
          (fun p => !decide (p.life ≤ 0)) ∧
      (Update ops ps dt).m_drawn = ps.m_drawn + 1 + 7 * (particlesToEmit ps dt).toNat := by
  obtain ⟨fresh, hlen, hpart, hdrawn, hlife⟩ :=
    iterate_appends (fun ps : ParticleSystem R => Emit ps ps.m_position 1)
      (fun ps => CreateParticle_appends ps ps.m_position) (particlesToEmit ps dt).toNat
      (RandomFloat ps 0 1).2
  refine ⟨fresh, hlen, hlife, ?_, ?_⟩
  · rw [Update_active ops ps dt hact, (UpdateBuffers_fields ops _).1]
    simp only [RemoveDeadParticles, hpart]
    rfl
  · rw [Update_active ops ps dt hact, (UpdateBuffers_fields ops _).2.1]
    simp only [RemoveDeadParticles, hdrawn]
    rfl

theorem toNat_particlesToEmit (ps : ParticleSystem R) (dt : R)
    (he : 0 ≤ ps.m_emissionRate * dt) :
    (particlesToEmit ps dt).toNat =
      spawnCount (ps.m_emissionRate * dt) (ps.m_rng ps.m_drawn).val := by
  have ht : truncToInt (ps.m_emissionRate * dt) = ⌊ps.m_emissionRate * dt⌋ := by
    simp [truncToInt, he]
  have hfl : (0 : Int) ≤ ⌊ps.m_emissionRate * dt⌋ := Int.floor_nonneg.mpr he
  have hnat : ⌊ps.m_emissionRate * dt⌋.toNat = ⌊ps.m_emissionRate * dt⌋₊ :=
    Int.floor_toNat _
  unfold particlesToEmit spawnCount
  simp only [RandomFloat, ht, Int.self_sub_floor, zero_add, sub_zero, mul_one]
  split
  · rw [← hnat]
    omega
  · exact hnat

theorem spawnCount_zero (u : UnitDraw R) : spawnCount (0 : R) u.val = 0 := by
  have hu : ¬ (0 : R) > u.val := not_lt.mpr u.property.1
  simp [spawnCount, hu]

theorem reachable_life_le (ops : GlmOps R) (ps : ParticleSystem R)
    (hr : Reachable ops ps) : ∀ p ∈ ps.m_particles, p.life ≤ p.maxLife := by
  induction hr with
  | fresh ps h => intro p hp; simp [h] at hp
  | emit ps pos count _ ih =>
    obtain ⟨fresh, _, hpart, _, hlife⟩ :=
      iterate_appends (fun ps : ParticleSystem R => CreateParticle ps pos)
        (fun ps => CreateParticle_appends ps pos) count.toNat ps
    intro p hp
    have hp2 : p ∈ ps.m_particles ++ fresh := by
      rw [← hpart]
      exact hp
    rcases List.mem_append.mp hp2 with h | h
    · exact ih p h
    · exact (hlife p h).le
  | update ps dt _ hdt ih =>
    cases hact : ps.m_active with
    | false =>
      have : Update ops ps dt = ps := by simp [Update, hact]
      rw [this]
      exact ih
    | true =>
      obtain ⟨fresh, _, hlife, hpart, _⟩ := Update_active_particles ops ps dt hact
      intro p hp
      rw [hpart] at hp
      obtain ⟨q, hq, rfl⟩ := List.mem_map.mp (List.mem_filter.mp hp).1
      rw [(UpdateParticle_life q dt).1, (UpdateParticle_life q dt).2]
      have hql : q.life ≤ q.maxLife := by
        rcases List.mem_append.mp hq with h | h
        · exact ih q h
        · exact (hlife q h).le
      linarith
  | configure ps ps2 _ hp ih =>
    intro p hpm
    rw [hp] at hpm
    exact ih p hpm

/-- C13: on an engine whose `m_active` flag is false `Update` returns the
engine as it was: particles, geometry arrays and the count of random numbers
drawn included. This covers an engine after `Stop()` and a freshly constructed
one. -/
theorem Update_inactive_noop (ops : GlmOps R) (ps : ParticleSystem R) (dt : R)
    (hin : ps.m_active = false) :
    Update ops ps dt = ps ∧
    Update ops (Stop ps) dt = Stop ps ∧
    ∀ rng, Update ops (ParticleSystem.new rng) dt = ParticleSystem.new rng := by
  refine ⟨?_, ?_, ?_⟩
  · simp [Update, hin]
  · simp [Update, Stop]
  · intro rng
    simp [Update, ParticleSystem.new]

/-- C14: on an active engine with `m_emissionRate * dt ≥ 0`, one `Update`
spawns exactly `spawnCount (m_emissionRate * dt) u` particles, `u` being the
next uniform draw: the particles after the call are the old ones followed by
that many fresh ones, all integrated and pruned, and one draw for the count
and seven for each fresh particle have been taken. The count is
`m_emissionRate * dt` when that product is a natural number; it is a function
of the rate, `dt` and the draw only. -/
theorem Update_spawn_count (ops : GlmOps R) (ps : ParticleSystem R) (dt : R)
    (hact : ps.m_active = true) (hnn : 0 ≤ ps.m_emissionRate * dt) :
    (∃ fresh : List (Particle R),
      fresh.length = spawnCount (ps.m_emissionRate * dt) (ps.m_rng ps.m_drawn).val ∧
      (Update ops ps dt).m_particles =
        ((ps.m_particles ++ fresh).map fun p => UpdateParticle p dt).filter
          fun p => !decide (p.life ≤ 0)) ∧
    (Update ops ps dt).m_drawn =
      ps.m_drawn + 1 + 7 * spawnCount (ps.m_emissionRate * dt) (ps.m_rng ps.m_drawn).val ∧
    (∀ k : Nat, ps.m_emissionRate * dt = k →
      spawnCount (ps.m_emissionRate * dt) (ps.m_rng ps.m_drawn).val = k) := by
  obtain ⟨fresh, hlen, _, hpart, hdrawn⟩ := Update_active_particles ops ps dt hact
  rw [toNat_particlesToEmit ps dt hnn] at hlen hdrawn
  refine ⟨⟨fresh, hlen, hpart⟩, hdrawn, ?_⟩
  intro k hk
  have hu : ¬ (0 : R) > (ps.m_rng ps.m_drawn).val :=
    not_lt.mpr (ps.m_rng ps.m_drawn).property.1
  rw [hk]
  unfold spawnCount
  rw [Int.fract_natCast, Nat.floor_natCast]
  simp [hu]

/-- C18: on a reachable engine that is active with emission rate 0, after
`Update(dt)` with `dt ≥ maxLife` for every particle in the collection no
particle is left. -/
theorem Update_clears_expired (ops : GlmOps R) (ps : ParticleSystem R) (dt : R)
    (hr : Reachable ops ps) (hact : ps.m_active = true) (hrate : ps.m_emissionRate = 0)
    (hdt : ∀ p ∈ ps.m_particles, p.maxLife ≤ dt) :
    (Update ops ps dt).m_particles = [] ∧ (Update ops ps dt).m_particles.length = 0 := by
  have hinv := reachable_life_le ops ps hr
  have he : ps.m_emissionRate * dt = 0 := by rw [hrate, zero_mul]
  obtain ⟨fresh, hlen, _, hpart, _⟩ := Update_active_particles ops ps dt hact
  rw [toNat_particlesToEmit ps dt (le_of_eq he.symm), he, spawnCount_zero] at hlen
  have hfresh : fresh = [] := List.length_eq_zero.mp hlen
  have hnil : (Update ops ps dt).m_particles = [] := by
    rw [hpart, hfresh, List.append_nil, List.filter_eq_nil_iff]
    intro q hq
    obtain ⟨p, hp, rfl⟩ := List.mem_map.mp hq
    have h1 := hinv p hp
    have h2 := hdt p hp
    have h3 : (UpdateParticle p dt).life ≤ 0 := by
      rw [(UpdateParticle_life p dt).1]
      linarith
    simp [h3]
  exact ⟨hnil, by rw [hnil]; rfl⟩

/-- C19: after `Update(dt)` on an active engine, and after `Reset()`, the
vertex array and the colour array both have 6 entries for each particle of the
collection, and they are what the fill loop produces from empty arrays and
the particles of the collection, so nothing of the arrays before the call is
left; after `Reset()` collection and arrays are empty. -/
theorem buffers_six_per_particle (ops : GlmOps R) (ps : ParticleSystem R) (dt : R)
    (hact : ps.m_active = true) :
    ((Update ops ps dt).m_vertices.length = 6 * (Update ops ps dt).m_particles.length ∧
      (Update ops ps dt).m_colors.length = 6 * (Update ops ps dt).m_particles.length ∧
      (Update ops ps dt).m_vertices =
        (fillBuffers ops (Update ops ps dt).m_particles ([], [])).1 ∧
      (Update ops ps dt).m_colors =
        (fillBuffers ops (Update ops ps dt).m_particles ([], [])).2) ∧
    ((Reset ops ps).m_particles = [] ∧ (Reset ops ps).m_vertices = [] ∧
      (Reset ops ps).m_colors = [] ∧
      (Reset ops ps).m_vertices.length = 6 * (Reset ops ps).m_particles.length ∧
      (Reset ops ps).m_colors.length = 6 * (Reset ops ps).m_particles.length) := by
  constructor
  · rw [Update_active ops ps dt hact]
    obtain ⟨hp, _, hv, hc⟩ := UpdateBuffers_fields ops
      (RemoveDeadParticles
        { ((fun ps => Emit ps ps.m_position 1)^[(particlesToEmit ps dt).toNat]
            (RandomFloat ps 0 1).2) with
          m_particles :=
            ((fun ps => Emit ps ps.m_position 1)^[(particlesToEmit ps dt).toNat]
              (RandomFloat ps 0 1).2).m_particles.map
              fun particle => UpdateParticle particle dt })
    rw [hp]
    refine ⟨?_, ?_, hv, hc⟩
    · rw [hv, (fillBuffers_length ops _ [] []).1]
      simp
    · rw [hc, (fillBuffers_length ops _ [] []).2]
      simp
  · exact ⟨rfl, rfl, rfl, rfl, rfl⟩

end Emission

/-! ### The particle engine on concrete inputs -/

section ParticleScenes

open ParticleSystem Object3D

/-- C20 fails on the code: for the particle at (1,0,0) with size 2 and
rotation 180 degrees the first corner built by `UpdateBuffers` is (0,1,0),
the rotation having been applied to position plus offset, while the corner
`p + Rz(a) * (-s/2, -s/2, 0)` of the claim is (2,1,0). -/
theorem quadCorners_rotates_position :
    (quadCorners
        (GlmOps.mk Real.cos Real.sin (fun d => d * (Real.pi / 180)) fun x => (Real.sqrt x)⁻¹)
        (offCentreParticle ℝ)).1 = ⟨0, 1, 0⟩ ∧
    specCorner
        (GlmOps.mk Real.cos Real.sin (fun d => d * (Real.pi / 180)) fun x => (Real.sqrt x)⁻¹)
        (offCentreParticle ℝ).position (offCentreParticle ℝ).rotation
        (-((offCentreParticle ℝ).size / 2)) (-((offCentreParticle ℝ).size / 2)) =
      ⟨2, 1, 0⟩ := by
  have hpi : (180 : ℝ) * (Real.pi / 180) = Real.pi := by ring
  constructor
  · simp only [quadCorners, offCentreParticle, Vec3.add, hpi, Real.cos_pi, Real.sin_pi]
    norm_num
  · simp only [specCorner, offCentreParticle, Vec3.add, hpi, Real.cos_pi, Real.sin_pi]
    norm_num

/-- Witness of C12: updating the hidden floor visits the floor and the marker
below it and leaves the heap as it was. -/
theorem Update_visits_all_hidden_floor :
    ∃ log2, Update 2 0 (1 / 60 : ℚ) ⟨hiddenFloorScene ℚ, []⟩ =
        some ⟨hiddenFloorScene ℚ, log2⟩ ∧ 0 ∈ log2 ∧ 1 ∈ log2 := by
  have hmarker : WithinDepth (hiddenFloorScene ℚ) 1 1 :=
    WithinDepth.node 0 1 { markerNode ℚ with m_parent := some 0 } rfl
      (fun c hc => by simp [markerNode, Object3D.new, Object3D.SetPosition] at hc)
  have hfloor : WithinDepth (hiddenFloorScene ℚ) 2 0 :=
    WithinDepth.node 1 0 { floorNode ℚ with m_children := [1], visible := false } rfl
      (fun c hc => by
        have hc1 : c = 1 := by simpa using hc
        rw [hc1]
        exact hmarker)
  obtain ⟨log2, hU, _, hdesc⟩ :=
    (Update_visits_all_changes_nothing (hiddenFloorScene ℚ) 2 2 (1 / 60) (Nat.le_refl 2)).1
      0 [] hfloor
  refine ⟨log2, hU, hdesc 0 Relation.ReflTransGen.refl, ?_⟩
  exact hdesc 1 (Relation.ReflTransGen.single
    ⟨{ floorNode ℚ with m_children := [1], visible := false }, rfl, by simp⟩)

/-- Witness of C13: a freshly constructed engine is left as it is. -/
theorem Update_inactive_noop_fresh :
    Update
        (GlmOps.mk Real.cos Real.sin (fun d => d * (Real.pi / 180)) fun x => (Real.sqrt x)⁻¹)
        (ParticleSystem.new (halfDraws ℝ)) (1 / 60) = ParticleSystem.new (halfDraws ℝ) :=
  (Update_inactive_noop _ (ParticleSystem.new (halfDraws ℝ)) (1 / 60) rfl).1

/-- Witness of C14: a started fresh engine (rate 10) updated with `dt = 0.3`
spawns 3 particles: 1 + 7 * 3 = 22 values have been drawn. -/
theorem Update_spawn_count_three :
    (Update
        (GlmOps.mk Real.cos Real.sin (fun d => d * (Real.pi / 180)) fun x => (Real.sqrt x)⁻¹)
        (ParticleSystem.new (halfDraws ℝ)).Start (3 / 10)).m_drawn = 22 := by
  have he : (ParticleSystem.new (halfDraws ℝ)).Start.m_emissionRate * (3 / 10) =
      ((3 : Nat) : ℝ) := by
    show (10 : ℝ) * (3 / 10) = ((3 : Nat) : ℝ)
    norm_num
  have h := Update_spawn_count
    (GlmOps.mk Real.cos Real.sin (fun d => d * (Real.pi / 180)) fun x => (Real.sqrt x)⁻¹)
    (ParticleSystem.new (halfDraws ℝ)).Start (3 / 10) rfl (by rw [he]; norm_num)
  rw [h.2.1, h.2.2 3 he]
  rfl

/-- Witness of C15: the particle a fresh engine creates has `maxLife` in
`[1, 3]` and `life = maxLife`. -/
theorem CreateParticle_in_ranges_fresh :
    ∃ p : Particle ℚ,
      (CreateParticle (ParticleSystem.new (halfDraws ℚ)) ⟨0, 0, 0⟩).m_particles = [] ++ [p] ∧
        (1 ≤ p.maxLife ∧ p.maxLife ≤ 3) ∧ p.life = p.maxLife := by
  obtain ⟨p, hp, _, _, _, _, hl, hlm, _⟩ :=
    CreateParticle_in_ranges (ParticleSystem.new (halfDraws ℚ)) ⟨0, 0, 0⟩
      (by norm_num [ParticleSystem.new, Vec3.splat])
      (by norm_num [ParticleSystem.new, Vec3.splat])
      (by norm_num [ParticleSystem.new, Vec3.splat])
      (by norm_num [ParticleSystem.new]) (by norm_num [ParticleSystem.new])
  exact ⟨p, hp, hl, hlm⟩

/-- Witness of C17: with `maxLife = 1`, the alpha at elapsed time 0.8 (in the
accelerated fade) is at most the alpha at elapsed time 0.5 (before it). -/
theorem alpha_nonincreasing_across_threshold :
    (UpdateParticle (offCentreParticle ℚ) (4 / 5)).color.a ≤
      (UpdateParticle (offCentreParticle ℚ) (1 / 2)).color.a :=
  alpha_nonincreasing (offCentreParticle ℚ) (offCentreParticle ℚ) (1 / 2) (4 / 5) (1 / 2)
    (4 / 5) (by norm_num [offCentreParticle]) rfl rfl rfl (by norm_num)
    (by norm_num [offCentreParticle])

/-- Witness of C18: the engine with one particle of `maxLife = 2`, updated
with `dt = 5`, has no particle left. -/
theorem Update_clears_expired_one :
    (Update
        (GlmOps.mk Real.cos Real.sin (fun d => d * (Real.pi / 180)) fun x => (Real.sqrt x)⁻¹)
        (oneParticleEngine ℝ) 5).m_particles = [] :=
  (Update_clears_expired _ (oneParticleEngine ℝ) 5
    (Reachable.configure _ _
      (Reachable.emit _ ⟨0, 0, 0⟩ 1 (Reachable.fresh (ParticleSystem.new (halfDraws ℝ)) rfl))
      rfl)
    rfl rfl
    (by
      intro p hp
      have hp2 : p ∈ (CreateParticle (ParticleSystem.new (halfDraws ℝ)) ⟨0, 0, 0⟩).m_particles :=
        hp
      simp only [CreateParticle, RandomVector, RandomFloat, ParticleSystem.new, halfDraws,
        List.nil_append, List.mem_singleton] at hp2
      rw [hp2]
      norm_num)).1

/-- Witness of C19: after one frame of a started fresh engine both arrays
have six entries per particle. -/
theorem buffers_six_per_particle_started :
    (Update
        (GlmOps.mk Real.cos Real.sin (fun d => d * (Real.pi / 180)) fun x => (Real.sqrt x)⁻¹)
        (ParticleSystem.new (halfDraws ℝ)).Start (3 / 10)).m_vertices.length =
      6 * (Update
        (GlmOps.mk Real.cos Real.sin (fun d => d * (Real.pi / 180)) fun x => (Real.sqrt x)⁻¹)
        (ParticleSystem.new (halfDraws ℝ)).Start (3 / 10)).m_particles.length :=
  (buffers_six_per_particle _ (ParticleSystem.new (halfDraws ℝ)).Start (3 / 10) rfl).1.1

end ParticleScenes

/-! ### The particle engine: layout of the arrays and pruning -/

theorem flatMap_six_getElem? {α β : Type} (f : α → List β) (hf : ∀ a, (f a).length = 6) :
    ∀ (l : List α) (i j : Nat), j < 6 →
      (l.flatMap f)[6 * i + j]? = (l[i]?).bind fun a => (f a)[j]? := by
  intro l
  induction l with
  | nil => intro i j _; simp
  | cons a l ih =>
    intro i j hj
    rw [List.flatMap_cons]
    cases i with
    | zero =>
      rw [List.getElem?_append_left (by rw [hf]; omega)]
      simp
    | succ i =>
      rw [List.getElem?_append_right (by rw [hf]; omega), hf,
        show 6 * (i + 1) + j - 6 = 6 * i + j by omega, ih i j hj]
      simp

section ArrayLayout

variable {R : Type} [LinearOrderedField R]

open ParticleSystem

theorem fillBuffers_eq (ops : GlmOps R) :
    ∀ (l : List (Particle R)) (vs : List (Vec3 R)) (cs : List (Vec4 R)),
      fillBuffers ops l (vs, cs) =
        (vs ++ l.flatMap (quadVertices ops),
          cs ++ l.flatMap fun p => List.replicate 6 p.color) := by
  intro l
  induction l with
  | nil => intro vs cs; simp [fillBuffers]
  | cons p l ih =>
    intro vs cs
    rw [fillBuffers]
    simp only [Function.iterate_succ, Function.iterate_zero, Function.comp_apply, id_eq]
    rw [ih]
    simp [quadVertices, List.replicate]

/-- C21: the vertex array after `UpdateBuffers` is, particle after particle in
collection order, the six vertices `c1, c2, c3, c1, c3, c4` of the corners the
loop builds for that particle, and the colour array holds the particle's
colour six times at the same places: entry `6 * i + j` for `j < 6` belongs to
particle `i`. -/
theorem UpdateBuffers_layout (ops : GlmOps R) (ps : ParticleSystem R) :
    (UpdateBuffers ops ps).m_vertices = ps.m_particles.flatMap (quadVertices ops) ∧
    (UpdateBuffers ops ps).m_colors =
      (ps.m_particles.flatMap fun p => List.replicate 6 p.color) ∧
    (∀ (i : Nat) (p : Particle R), ps.m_particles[i]? = some p → ∀ j, j < 6 →
      (UpdateBuffers ops ps).m_vertices[6 * i + j]? = (quadVertices ops p)[j]? ∧
      (UpdateBuffers ops ps).m_colors[6 * i + j]? = some p.color) := by
  have hv : (UpdateBuffers ops ps).m_vertices = ps.m_particles.flatMap (quadVertices ops) := by
    rw [(UpdateBuffers_fields ops ps).2.2.1, fillBuffers_eq]
    simp
  have hc : (UpdateBuffers ops ps).m_colors =
      (ps.m_particles.flatMap fun p => List.replicate 6 p.color) := by
    rw [(UpdateBuffers_fields ops ps).2.2.2, fillBuffers_eq]
    simp
  refine ⟨hv, hc, ?_⟩
  intro i p hp j hj
  constructor
  · rw [hv, flatMap_six_getElem? (quadVertices ops) (fun _ => rfl) _ i j hj, hp]
    rfl
  · rw [hc, flatMap_six_getElem? (fun p : Particle R => List.replicate 6 p.color)
      (fun _ => by simp) _ i j hj, hp]
    exact List.getElem?_replicate_of_lt hj

/-- C25: `RemoveDeadParticles` keeps exactly the particles with `life > 0`, as
they are and in their order: the new collection is the old one filtered by
`life > 0`; nothing else of the engine changes. -/
theorem RemoveDeadParticles_keeps_alive (ps : ParticleSystem R) :
    (RemoveDeadParticles ps).m_particles =
      ps.m_particles.filter (fun p => decide (0 < p.life)) ∧
    (RemoveDeadParticles ps).m_particles.Sublist ps.m_particles ∧
    (∀ p, p ∈ (RemoveDeadParticles ps).m_particles ↔ p ∈ ps.m_particles ∧ 0 < p.life) ∧
    (RemoveDeadParticles ps).m_vertices = ps.m_vertices ∧
    (RemoveDeadParticles ps).m_colors = ps.m_colors ∧
    (RemoveDeadParticles ps).m_drawn = ps.m_drawn := by
  have hf : (RemoveDeadParticles ps).m_particles =
      ps.m_particles.filter (fun p => decide (0 < p.life)) := by
    simp only [RemoveDeadParticles]
    apply List.filter_congr
    intro p _
    by_cases h : p.life ≤ 0
    · simp [h, not_lt.mpr h]
    · simp [h, not_le.mp h]
  refine ⟨hf, ?_, ?_, rfl, rfl, rfl⟩
  · rw [hf]
    exact List.filter_sublist _
  · intro p
    rw [hf]
    simp [List.mem_filter]

end ArrayLayout

/-! ### The particle engine: fresh particles -/

section FreshParticles

variable {R : Type} [LinearOrderedField R]

open ParticleSystem

theorem CreateParticle_fresh (ps : ParticleSystem R) (pos : Vec3 R) :
    (∃ p, (CreateParticle ps pos).m_particles = ps.m_particles ++ [p] ∧ p.position = pos ∧
      p.life = p.maxLife ∧
      ∃ u : UnitDraw R, p.maxLife = ps.m_lifeMin + u.val * (ps.m_lifeMax - ps.m_lifeMin)) ∧
    (CreateParticle ps pos).m_lifeMin = ps.m_lifeMin ∧
    (CreateParticle ps pos).m_lifeMax = ps.m_lifeMax ∧
    (CreateParticle ps pos).m_vertices = ps.m_vertices ∧
    (CreateParticle ps pos).m_colors = ps.m_colors ∧
    (CreateParticle ps pos).m_active = ps.m_active :=
  ⟨⟨_, rfl, rfl, rfl, _, rfl⟩, rfl, rfl, rfl, rfl, rfl⟩

theorem iterate_appends_inv (f : ParticleSystem R → ParticleSystem R)
    (Cfg : ParticleSystem R → Prop) (Q : Particle R → Prop)
    (hf : ∀ ps, Cfg ps → Cfg (f ps) ∧ ∃ p, (f ps).m_particles = ps.m_particles ++ [p] ∧ Q p)
    (k : Nat) :
    ∀ ps : ParticleSystem R, Cfg ps →
      Cfg (f^[k] ps) ∧ ∃ fresh : List (Particle R), fresh.length = k ∧
        (f^[k] ps).m_particles = ps.m_particles ++ fresh ∧ ∀ p ∈ fresh, Q p := by
  induction k with
  | zero => intro ps hc; exact ⟨hc, [], rfl, by simp, by simp⟩
  | succ k ih =>
    intro ps hc
    obtain ⟨hc1, p, hp, hq⟩ := hf ps hc
    obtain ⟨hck, fresh, hlen, hpart, hall⟩ := ih (f ps) hc1
    rw [Function.iterate_succ_apply]
    refine ⟨hck, p :: fresh, by simp [hlen], ?_, ?_⟩
    · rw [hpart, hp]
      simp
    · intro q hq2
      rcases List.mem_cons.mp hq2 with rfl | hq2
      · exact hq
      · exact hall q hq2

/-- The part of the engine state that creating particles leaves alone. -/
theorem Emit_keeps (ps0 : ParticleSystem R) (pos : Vec3 R) (count : Int)
    (hl : ps0.m_lifeMin ≤ ps0.m_lifeMax) :
    ((Emit ps0 pos count).m_lifeMin = ps0.m_lifeMin ∧
      (Emit ps0 pos count).m_lifeMax = ps0.m_lifeMax ∧
      (Emit ps0 pos count).m_vertices = ps0.m_vertices ∧
      (Emit ps0 pos count).m_colors = ps0.m_colors ∧
      (Emit ps0 pos count).m_active = ps0.m_active) ∧
    ∃ fresh : List (Particle R), fresh.length = count.toNat ∧
      (Emit ps0 pos count).m_particles = ps0.m_particles ++ fresh ∧
      ∀ p ∈ fresh, p.position = pos ∧ p.life = p.maxLife ∧
        ps0.m_lifeMin ≤ p.maxLife ∧ p.maxLife ≤ ps0.m_lifeMax := by
  apply iterate_appends_inv (fun ps => CreateParticle ps pos)
    (fun ps => ps.m_lifeMin = ps0.m_lifeMin ∧ ps.m_lifeMax = ps0.m_lifeMax ∧
      ps.m_vertices = ps0.m_vertices ∧ ps.m_colors = ps0.m_colors ∧
      ps.m_active = ps0.m_active)
    (fun p => p.position = pos ∧ p.life = p.maxLife ∧
      ps0.m_lifeMin ≤ p.maxLife ∧ p.maxLife ≤ ps0.m_lifeMax)
  · intro ps hc
    obtain ⟨⟨p, hp, hpos, hlife, u, hu⟩, h1, h2, h3, h4, h5⟩ := CreateParticle_fresh ps pos
    refine ⟨⟨h1.trans hc.1, h2.trans hc.2.1, h3.trans hc.2.2.1, h4.trans hc.2.2.2.1,
      h5.trans hc.2.2.2.2⟩, p, hp, hpos, hlife, ?_⟩
    rw [hu, hc.1, hc.2.1]
    exact random_in_range u _ _ hl
  · exact ⟨rfl, rfl, rfl, rfl, rfl⟩

end FreshParticles

/-! ### The particle engine: spawning, integration and pruning in one frame -/

section FrameInvariants

variable {R : Type} [LinearOrderedField R] [FloorRing R]

open ParticleSystem

theorem Update_active_fresh (ops : GlmOps R) (ps : ParticleSystem R) (dt : R)
    (hact : ps.m_active = true) (hl : ps.m_lifeMin ≤ ps.m_lifeMax) :
    ∃ fresh : List (Particle R),
      (∀ p ∈ fresh, p.life = p.maxLife ∧ ps.m_lifeMin ≤ p.maxLife ∧
        p.maxLife ≤ ps.m_lifeMax) ∧
      (Update ops ps dt).m_particles =
        ((ps.m_particles ++ fresh).map fun p => UpdateParticle p dt).filter
          (fun p => !decide (p.life ≤ 0)) ∧
      (Update ops ps dt).m_lifeMin = ps.m_lifeMin ∧
      (Update ops ps dt).m_lifeMax = ps.m_lifeMax := by
  obtain ⟨⟨hmin, hmax⟩, fresh, _, hpart, hall⟩ :=
    iterate_appends_inv (fun ps : ParticleSystem R => Emit ps ps.m_position 1)
      (fun q => q.m_lifeMin = ps.m_lifeMin ∧ q.m_lifeMax = ps.m_lifeMax)
      (fun p => p.life = p.maxLife ∧ ps.m_lifeMin ≤ p.maxLife ∧ p.maxLife ≤ ps.m_lifeMax)
      (fun q hc => by
        obtain ⟨⟨p, hp, _, hlife, u, hu⟩, h1, h2, _⟩ := CreateParticle_fresh q q.m_position
        refine ⟨⟨h1.trans hc.1, h2.trans hc.2⟩, p, hp, hlife, ?_⟩
        rw [hu, hc.1, hc.2]
        exact random_in_range u _ _ hl)
      (particlesToEmit ps dt).toNat (RandomFloat ps 0 1).2 ⟨rfl, rfl⟩
  refine ⟨fresh, hall, ?_, ?_, ?_⟩
  · rw [Update_active ops ps dt hact, (UpdateBuffers_fields ops _).1]
    simp only [RemoveDeadParticles, hpart]
    rfl
  · rw [Update_active ops ps dt hact]
    exact hmin
  · rw [Update_active ops ps dt hact]
    exact hmax

theorem Update_active_buffers (ops : GlmOps R) (ps : ParticleSystem R) (dt : R)
    (hact : ps.m_active = true) :
    (Update ops ps dt).m_vertices =
        (fillBuffers ops (Update ops ps dt).m_particles ([], [])).1 ∧
      (Update ops ps dt).m_colors =
        (fillBuffers ops (Update ops ps dt).m_particles ([], [])).2 := by
  rw [Update_active ops ps dt hact]
  exact ⟨rfl, rfl⟩

theorem run_invariant (ops : GlmOps R) (ps0 ps : ParticleSystem R)
    (h0 : ∀ p ∈ ps0.m_particles, 0 < p.life ∧ p.life ≤ p.maxLife)
    (hmin : 0 < ps0.m_lifeMin) (hl : ps0.m_lifeMin ≤ ps0.m_lifeMax)
    (hrun : Run ops ps0 ps) :
    ps.m_lifeMin = ps0.m_lifeMin ∧ ps.m_lifeMax = ps0.m_lifeMax ∧
      ∀ p ∈ ps.m_particles, 0 < p.life ∧ p.life ≤ p.maxLife := by
  induction hrun with
  | init => exact ⟨rfl, rfl, h0⟩
  | start ps _ ih => exact ih
  | stop ps _ ih => exact ih
  | emit ps pos count _ ih =>
    obtain ⟨h1, h2, hinv⟩ := ih
    have hl2 : ps.m_lifeMin ≤ ps.m_lifeMax := by rw [h1, h2]; exact hl
    obtain ⟨⟨k1, k2, _⟩, fresh, _, hpart, hall⟩ := Emit_keeps ps pos count hl2
    refine ⟨k1.trans h1, k2.trans h2, ?_⟩
    intro p hp
    rw [hpart] at hp
    rcases List.mem_append.mp hp with hp | hp
    · exact hinv p hp
    · obtain ⟨_, hlife, hlo, _⟩ := hall p hp
      rw [hlife]
      exact ⟨lt_of_lt_of_le (by rw [h1]; exact hmin) hlo, le_refl _⟩
  | update ps dt _ hdt ih =>
    obtain ⟨h1, h2, hinv⟩ := ih
    cases hact : ps.m_active with
    | false =>
      have hsame : Update ops ps dt = ps := by simp [Update, hact]
      rw [hsame]
      exact ⟨h1, h2, hinv⟩
    | true =>
      have hl2 : ps.m_lifeMin ≤ ps.m_lifeMax := by rw [h1, h2]; exact hl
      obtain ⟨fresh, hall, hpart, k1, k2⟩ := Update_active_fresh ops ps dt hact hl2
      refine ⟨k1.trans h1, k2.trans h2, ?_⟩
      intro p hp
      rw [hpart] at hp
      obtain ⟨hmem, hpos⟩ := List.mem_filter.mp hp
      obtain ⟨q, hq, rfl⟩ := List.mem_map.mp hmem
      have hq2 : q.life ≤ q.maxLife := by
        rcases List.mem_append.mp hq with hq | hq
        · exact (hinv q hq).2
        · exact (hall q hq).1.le
      constructor
      · simpa using hpos
      · rw [(UpdateParticle_life q dt).1, (UpdateParticle_life q dt).2]
        linarith

/-- C27: from an engine with `0 < m_lifeMin ≤ m_lifeMax` whose particles (if
any) have `0 < life ≤ maxLife`, after any sequence of `Start`, `Stop`, `Emit`
and `Update(dt)` calls with `dt ≥ 0` every particle of the collection has
`0 ≤ life ≤ maxLife`, and after a further `Update` on the active engine every
remaining particle has `0 < life ≤ maxLife`. -/
theorem life_within_bounds (ops : GlmOps R) (ps0 ps : ParticleSystem R)
    (h0 : ∀ p ∈ ps0.m_particles, 0 < p.life ∧ p.life ≤ p.maxLife)
    (hmin : 0 < ps0.m_lifeMin) (hl : ps0.m_lifeMin ≤ ps0.m_lifeMax)
    (hrun : Run ops ps0 ps) :
    (∀ p ∈ ps.m_particles, 0 ≤ p.life ∧ p.life ≤ p.maxLife) ∧
    (∀ dt, 0 ≤ dt → ps.m_active = true →
      ∀ p ∈ (Update ops ps dt).m_particles, 0 < p.life ∧ p.life ≤ p.maxLife) := by
  constructor
  · intro p hp
    obtain ⟨hpos, hle⟩ := (run_invariant ops ps0 ps h0 hmin hl hrun).2.2 p hp
    exact ⟨hpos.le, hle⟩
  · intro dt hdt _ p hp
    exact (run_invariant ops ps0 _ h0 hmin hl (Run.update ps dt hrun hdt)).2.2 p hp

/-- C29: `Emit(p, count)` appends `max(count, 0)` particles, each at
position `p`, whatever the `m_active` flag, and leaves both arrays and the
flag as they were; so when the vertex array had six entries per particle and
`count > 0`, it no longer has afterwards, and it has again after an `Update`
on the engine when it is active. -/
theorem Emit_appends_count (ps : ParticleSystem R) (pos : Vec3 R) (count : Int) :
    (∃ fresh : List (Particle R), (fresh.length : Int) = max count 0 ∧
      (Emit ps pos count).m_particles = ps.m_particles ++ fresh ∧
      ∀ p ∈ fresh, p.position = pos) ∧
    (Emit ps pos count).m_vertices = ps.m_vertices ∧
    (Emit ps pos count).m_colors = ps.m_colors ∧
    (Emit ps pos count).m_active = ps.m_active ∧
    (0 < count → ps.m_vertices.length = 6 * ps.m_particles.length →
      (Emit ps pos count).m_vertices.length ≠ 6 * (Emit ps pos count).m_particles.length) ∧
    (0 < count → ps.m_colors.length = 6 * ps.m_particles.length →
      (Emit ps pos count).m_colors.length ≠ 6 * (Emit ps pos count).m_particles.length) ∧
    (∀ (ops : GlmOps R) (dt : R), ps.m_active = true →
      (Update ops (Emit ps pos count) dt).m_vertices.length =
        6 * (Update ops (Emit ps pos count) dt).m_particles.length) := by
  obtain ⟨⟨hv, hc, ha⟩, fresh, hlen, hpart, hall⟩ :=
    iterate_appends_inv (fun q : ParticleSystem R => CreateParticle q pos)
      (fun q => q.m_vertices = ps.m_vertices ∧ q.m_colors = ps.m_colors ∧
        q.m_active = ps.m_active)
      (fun p => p.position = pos)
      (fun q hc => by
        obtain ⟨⟨p, hp, hpos, _⟩, _, _, h3, h4, h5⟩ := CreateParticle_fresh q pos
        exact ⟨⟨h3.trans hc.1, h4.trans hc.2.1, h5.trans hc.2.2⟩, p, hp, hpos⟩)
      count.toNat ps ⟨rfl, rfl, rfl⟩
  have hv2 : (Emit ps pos count).m_vertices = ps.m_vertices := hv
  have hc2 : (Emit ps pos count).m_colors = ps.m_colors := hc
  have ha2 : (Emit ps pos count).m_active = ps.m_active := ha
  have hp2 : (Emit ps pos count).m_particles = ps.m_particles ++ fresh := hpart
  refine ⟨⟨fresh, ?_, hp2, hall⟩, hv2, hc2, ha2, ?_, ?_, ?_⟩
  · rw [hlen]
    omega
  · intro hpos hsix
    rw [hv2, hp2, List.length_append, hlen, hsix]
    omega
  · intro hpos hsix
    rw [hc2, hp2, List.length_append, hlen, hsix]
    omega
  · intro ops dt hact
    have hact2 : (Emit ps pos count).m_active = true := ha2.trans hact
    rw [(Update_active_buffers ops _ dt hact2).1, (fillBuffers_length ops _ [] []).1]
    simp

/-- C30: on an active engine with `m_lifeMin ≤ m_lifeMax ≤ dt` in which every
particle has `life ≤ dt`, the particle collection and both arrays are empty
after `Update(dt)`: the particles spawned in the call are integrated and
pruned in the same call. Rate and draws are arbitrary. -/
theorem Update_prunes_spawned (ops : GlmOps R) (ps : ParticleSystem R) (dt : R)
    (hact : ps.m_active = true) (hl : ps.m_lifeMin ≤ ps.m_lifeMax)
    (hdt : ps.m_lifeMax ≤ dt) (hex : ∀ p ∈ ps.m_particles, p.life ≤ dt) :
    (Update ops ps dt).m_particles = [] ∧ (Update ops ps dt).m_vertices = [] ∧
      (Update ops ps dt).m_colors = [] := by
  obtain ⟨fresh, hall, hpart, _, _⟩ := Update_active_fresh ops ps dt hact hl
  have hnil : (Update ops ps dt).m_particles = [] := by
    rw [hpart, List.filter_eq_nil_iff]
    intro q hq
    obtain ⟨p, hp, rfl⟩ := List.mem_map.mp hq
    have hle : p.life ≤ dt := by
      rcases List.mem_append.mp hp with hp | hp
      · exact hex p hp
      · obtain ⟨h1, _, h3⟩ := hall p hp
        rw [h1]
        exact le_trans h3 hdt
    have h3 : (UpdateParticle p dt).life ≤ 0 := by
      rw [(UpdateParticle_life p dt).1]
      linarith
    simp [h3]
  obtain ⟨hv, hc⟩ := Update_active_buffers ops ps dt hact
  refine ⟨hnil, ?_, ?_⟩
  · rw [hv, hnil]
    rfl
  · rw [hc, hnil]
    rfl

end FrameInvariants

/-! ### The particle engine: alpha at elapsed time 0.99 -/

section AlphaAtElapsed

variable {R : Type} [LinearOrderedField R]

open ParticleSystem

theorem foldl_UpdateParticle_life (dts : List R) :
    ∀ p : Particle R, (dts.foldl UpdateParticle p).life = p.life - dts.sum ∧
      (dts.foldl UpdateParticle p).maxLife = p.maxLife := by
  induction dts with
  | nil => intro p; simp
  | cons d ds ih =>
    intro p
    obtain ⟨h1, h2⟩ := ih (UpdateParticle p d)
    rw [List.foldl_cons, h1, h2, (UpdateParticle_life p d).1, (UpdateParticle_life p d).2,
      List.sum_cons]
    exact ⟨by ring, rfl⟩

theorem foldl_UpdateParticle_alpha (dts : List R) (hne : dts ≠ []) :
    ∀ p : Particle R, (dts.foldl UpdateParticle p).color.a =
      fadeAlpha ((p.life - dts.sum) / p.maxLife) := by
  induction dts with
  | nil => exact absurd rfl hne
  | cons d ds ih =>
    intro p
    cases ds with
    | nil => simp [UpdateParticle_alpha]
    | cons e es =>
      rw [List.foldl_cons, ih (List.cons_ne_nil e es) (UpdateParticle p d),
        (UpdateParticle_life p d).1, (UpdateParticle_life p d).2]
      congr 2
      simp only [List.sum_cons]
      ring

/-- C26, as amended: with life range [1,1] the particle created has
`maxLife = life = 1`, and after integration steps that add up to the elapsed
time 0.99 its alpha is `0.01 * (0.01 / 0.3)`: the life ratio is 0.01, inside
the accelerated fade. -/
theorem alpha_at_elapsed_099 (ps : ParticleSystem R) (pos : Vec3 R) (dts : List R)
    (hmin : ps.m_lifeMin = 1) (hmax : ps.m_lifeMax = 1) (hne : dts ≠ [])
    (hsum : dts.sum = 99 / 100) :
    ∃ p : Particle R, (CreateParticle ps pos).m_particles = ps.m_particles ++ [p] ∧
      p.maxLife = 1 ∧ p.life = 1 ∧
      (dts.foldl UpdateParticle p).color.a = 1 / 100 * (1 / 100 / (3 / 10)) := by
  obtain ⟨⟨p, hp, _, hlife, u, hu⟩, _⟩ := CreateParticle_fresh ps pos
  have hm : p.maxLife = 1 := by rw [hu, hmin, hmax]; ring
  have hl : p.life = 1 := by rw [hlife, hm]
  refine ⟨p, hp, hm, hl, ?_⟩
  rw [foldl_UpdateParticle_alpha dts hne p, hl, hm, hsum]
  norm_num [fadeAlpha]

end AlphaAtElapsed

/-! ### A second parent -/

section SecondParent

variable {R : Type}

open Object3D

theorem AddChild_at (h : Heap R) (P C n : Ptr) (o : Object3D R) (hn : h n = some o) :
    ∃ o2, AddChild h P (some C) n = some o2 ∧
      o2.m_children = (if n = P then o.m_children ++ [C] else o.m_children) ∧
      o2.m_parent = (if n = C then some P else o.m_parent) ∧
      o2.visible = o.visible ∧ o2.name = o.name := by
  by_cases hP : n = P
  · subst hP
    by_cases hC : n = C
    · subst hC
      simp [AddChild, SetParent, modifyAt, hn]
    · simp [AddChild, SetParent, modifyAt, hn, hC]
  · by_cases hC : n = C
    · subst hC
      simp [AddChild, SetParent, modifyAt, hn, hP]
    · simp [AddChild, SetParent, modifyAt, hn, hP, hC]

theorem AddChild_dead (h : Heap R) (P C n : Ptr) (hn : h n = none) :
    AddChild h P (some C) n = none := by
  by_cases hP : n = P
  · subst hP
    by_cases hC : n = C
    · subst hC
      simp [AddChild, SetParent, modifyAt, hn]
    · simp [AddChild, SetParent, modifyAt, hn, hC]
  · by_cases hC : n = C
    · subst hC
      simp [AddChild, SetParent, modifyAt, hn, hP]
    · simp [AddChild, SetParent, modifyAt, hn, hP, hC]

/-- C23: when `C` is a child of `P1`, `P2.AddChild(C)` goes through without a
check: afterwards `C` is still in the child list of `P1`, it is in the child
list of `P2` as well, and `GetParent` on `C` returns `P2`. -/
theorem AddChild_second_owner (h : Heap R) (P1 P2 C : Ptr) (o1 o2 co : Object3D R)
    (h1 : h P1 = some o1) (hc : C ∈ o1.m_children) (h2 : h P2 = some o2)
    (hC : h C = some co) :
    (∃ n1, AddChild h P2 (some C) P1 = some n1 ∧ C ∈ n1.m_children) ∧
    (∃ n2, AddChild h P2 (some C) P2 = some n2 ∧ C ∈ n2.m_children) ∧
    GetParent (AddChild h P2 (some C)) C = some P2 := by
  obtain ⟨n1, hn1, hch1, _⟩ := AddChild_at h P2 C P1 o1 h1
  obtain ⟨n2, hn2, hch2, _⟩ := AddChild_at h P2 C P2 o2 h2
  obtain ⟨nc, hnc, _, hpar, _⟩ := AddChild_at h P2 C C co hC
  refine ⟨⟨n1, hn1, ?_⟩, ⟨n2, hn2, ?_⟩, ?_⟩
  · rw [hch1]
    split <;> simp [hc]
  · rw [hch2]
    simp
  · simp [GetParent, hnc, hpar, lock, hn2]

end SecondParent

/-! ### The hierarchy as a forest -/

section Forest

variable {R : Type}

open Object3D

theorem WithinDepth_mono (h : Heap R) :
    ∀ (k : Nat) (n : Ptr), WithinDepth h k n → ∀ k2, k ≤ k2 → WithinDepth h k2 n := by
  intro k n hw
  induction hw with
  | node depth n o hn _ ih =>
    intro k2 hk
    obtain ⟨j, rfl⟩ : ∃ j, k2 = j + 1 := ⟨k2 - 1, by omega⟩
    exact WithinDepth.node j n o hn fun c hc => ih c hc j (by omega)

theorem WithinDepth_children_subset (h h2 : Heap R)
    (hsub : ∀ n o, h n = some o →
      ∃ o2, h2 n = some o2 ∧ ∀ c ∈ o2.m_children, c ∈ o.m_children) :
    ∀ (k : Nat) (n : Ptr), WithinDepth h k n → WithinDepth h2 k n := by
  intro k n hw
  induction hw with
  | node depth n o hn _ ih =>
    obtain ⟨o2, hn2, hmem⟩ := hsub n o hn
    exact WithinDepth.node depth n o2 hn2 fun c hc => ih c (hmem c hc)

theorem RemoveChild_at (h : Heap R) (P : Ptr) (name : String) (n : Ptr) (o : Object3D R)
    (hn : h n = some o) :
    ∃ o2, RemoveChild h P name n = some o2 ∧ ∀ c ∈ o2.m_children, c ∈ o.m_children := by
  by_cases hP : n = P
  · subst hP
    refine ⟨_, modifyAt_same h n _ o hn, ?_⟩
    intro c hc
    exact (List.mem_filter.mp hc).1
  · exact ⟨o, by simp [RemoveChild, modifyAt, hP, hn], fun c hc => hc⟩

theorem WithinDepth_AddChild_off (h : Heap R) (P C : Ptr) :
    ∀ (k : Nat) (n : Ptr), WithinDepth h k n → ¬ IsDescendant h n P →
      WithinDepth (AddChild h P (some C)) k n := by
  intro k n hw
  induction hw with
  | node depth n o hn _ ih =>
    intro hnd
    have hne : n ≠ P := fun he => hnd (he ▸ Relation.ReflTransGen.refl)
    obtain ⟨o2, hn2, hch, _⟩ := AddChild_at h P C n o hn
    rw [if_neg hne] at hch
    refine WithinDepth.node depth n o2 hn2 fun c hc => ?_
    rw [hch] at hc
    exact ih c hc fun hd => hnd (Relation.ReflTransGen.head ⟨o, hn, hc⟩ hd)

theorem WithinDepth_AddChild_on (h : Heap R) (P C : Ptr) (d : Nat)
    (hC : WithinDepth (AddChild h P (some C)) d C) :
    ∀ (k : Nat) (n : Ptr), WithinDepth h k n →
      WithinDepth (AddChild h P (some C)) (k + d) n := by
  intro k n hw
  induction hw with
  | node depth n o hn _ ih =>
    obtain ⟨o2, hn2, hch, _⟩ := AddChild_at h P C n o hn
    rw [show depth + 1 + d = depth + d + 1 by omega]
    refine WithinDepth.node (depth + d) n o2 hn2 fun c hc => ?_
    rw [hch] at hc
    have hold : c ∈ o.m_children → WithinDepth (AddChild h P (some C)) (depth + d) c :=
      fun hm => ih c hm
    split at hc
    · rcases List.mem_append.mp hc with hm | hm
      · exact hold hm
      · rw [List.mem_singleton.mp hm]
        exact WithinDepth_mono _ d C hC (depth + d) (by omega)
    · exact hold hc

theorem acyclic_of_WithinDepth (h : Heap R) :
    ∀ (k : Nat) (n : Ptr), WithinDepth h k n → ¬ Relation.TransGen (IsChild h) n n := by
  intro k n hw
  induction hw with
  | node depth n o hn _ ih =>
    intro hcyc
    obtain ⟨c, ⟨o2, hn2, hmem⟩, hback⟩ := Relation.TransGen.head'_iff.mp hcyc
    rw [hn] at hn2
    cases hn2
    exact ih c hmem (Relation.TransGen.tail' hback ⟨o, hn, hmem⟩)

theorem guarded_bounded (h : Heap R) (hr : ReachableBy NotOwnAncestor h) :
    ∃ d, ∀ n o, h n = some o → WithinDepth h d n := by
  induction hr with
  | start h hd =>
    refine ⟨1, fun n o hn => WithinDepth.node 0 n o hn fun c hc => ?_⟩
    rw [(hd n o hn).1] at hc
    simp at hc
  | addChild h P C _ hP hC hg ih =>
    obtain ⟨d, hd⟩ := ih
    obtain ⟨co, hco⟩ := Option.isSome_iff_exists.mp hC
    have hC2 : WithinDepth (AddChild h P (some C)) d C :=
      WithinDepth_AddChild_off h P C d C (hd C co hco) hg
    refine ⟨d + d, fun n o2 hn2 => ?_⟩
    cases hn : h n with
    | none => rw [AddChild_dead h P C n hn] at hn2; cases hn2
    | some o => exact WithinDepth_AddChild_on h P C d hC2 d n (hd n o hn)
  | addNull h P _ ih => exact ih
  | removeChild h P name _ ih =>
    obtain ⟨d, hd⟩ := ih
    refine ⟨d, fun n o2 hn2 => ?_⟩
    cases hn : h n with
    | none =>
      exfalso
      by_cases hP : n = P
      · subst hP
        simp [RemoveChild, modifyAt, hn] at hn2
      · simp [RemoveChild, modifyAt, hn, hP] at hn2
    | some o =>
      exact WithinDepth_children_subset h _ (RemoveChild_at h P name) d n (hd n o hn)

end Forest

/-! ### Termination on a forest -/

theorem RenderChildren_terminates {R : Type}
    (render : Ptr → Mat4 R → ShaderManager R → Option (ShaderManager R)) :
    ∀ (cs : List Ptr), (∀ c ∈ cs, ∀ M s, ∃ s2, render c M s = some s2) →
      ∀ M s, ∃ s2, Object3D.RenderChildren render cs M s = some s2 := by
  intro cs
  induction cs with
  | nil => intro _ M s; exact ⟨s, rfl⟩
  | cons c cs ih =>
    intro hr M s
    obtain ⟨s1, h1⟩ := hr c (List.mem_cons_self c cs) M s
    obtain ⟨s2, h2⟩ := ih (fun d hd => hr d (List.mem_cons_of_mem c hd)) M s1
    exact ⟨s2, by rw [Object3D.RenderChildren, h1]; exact h2⟩

section ForestTermination

variable {R : Type} [Field R]

open Object3D

theorem RenderParent_terminates (ops : GlmOps R) (h : Heap R) :
    ∀ (k fuel : Nat), k ≤ fuel → ∀ n, WithinDepth h k n → ∀ M s,
      ∃ s2, RenderParent ops h fuel n M s = some s2 := by
  intro k
  induction k with
  | zero => intro fuel _ n hn; cases hn
  | succ d ih =>
    intro fuel hf n hn M s
    obtain ⟨f, rfl⟩ : ∃ f, fuel = f + 1 := ⟨fuel - 1, by omega⟩
    cases hn with
    | node _ _ o ho hc =>
      rw [RenderParent]
      simp only [ho]
      split
      · exact ⟨s, rfl⟩
      · exact RenderChildren_terminates (RenderParent ops h f) o.m_children
          (fun c hcm M2 s2 => ih f (by omega) c (hc c hcm) M2 s2) _ _

/-- C22, as amended: in every hierarchy reached from detached nodes by
`RemoveChild` calls and by `AddChild` calls whose new parent is neither the
child itself nor one of its descendants (a condition `AddChild` does not
check), no node is in its own subtree, and there is a depth bound with which
`Update` and `Render(sink, M)` return on every live node. -/
theorem guarded_calls_forest (ops : GlmOps R) (h : Heap R)
    (hr : ReachableBy NotOwnAncestor h) :
    (∀ n, ¬ Relation.TransGen (IsChild h) n n) ∧
    ∃ d, ∀ n o, h n = some o → ∀ fuel, d ≤ fuel →
      (∀ (dt : R) log, ∃ log2, Update fuel n dt ⟨h, log⟩ = some ⟨h, log2⟩) ∧
      (∀ M s, ∃ s2, RenderParent ops h fuel n M s = some s2) := by
  obtain ⟨d, hd⟩ := guarded_bounded h hr
  constructor
  · intro n hcyc
    obtain ⟨c, ⟨o, hn, _⟩, _⟩ := Relation.TransGen.head'_iff.mp hcyc
    exact acyclic_of_WithinDepth h d n (hd n o hn) hcyc
  · refine ⟨d, fun n o hn fuel hf => ⟨?_, ?_⟩⟩
    · intro dt log
      obtain ⟨log2, h2, _⟩ := Update_visits h dt d fuel hf n (hd n o hn) log
      exact ⟨log2, h2⟩
    · intro M s
      exact RenderParent_terminates ops h d fuel hf n (hd n o hn) M s

end ForestTermination

section ForestScenes

open Object3D

theorem detachedScene_detached : Detached (detachedScene ℚ) := by
  intro n o hn
  unfold detachedScene at hn
  split at hn
  · cases hn
    exact ⟨rfl, rfl⟩
  · split at hn
    · cases hn
      exact ⟨rfl, rfl⟩
    · cases hn

theorem selfChild_Update_none (dt : ℚ) :
    ∀ (fuel : Nat) (st : UpdateState ℚ), st.heap = selfChildScene ℚ →
      Update fuel 0 dt st = none := by
  intro fuel
  induction fuel with
  | zero => intro st _; rfl
  | succ f ih =>
    intro st hst
    have h0 : st.heap 0 =
        some { floorNode ℚ with m_parent := some 0, m_children := [0] } := by
      rw [hst]
      rfl
    rw [Update]
    simp only [h0, UpdateChildren]
    rw [ih ⟨st.heap, st.visited ++ [0]⟩ hst]

/-- C22 fails as stated: `floor->AddChild(floor)` is a call on detached nodes,
and afterwards the floor is its own child and its own parent; `Update` and
`GetWorldMatrix` on it return for no amount of fuel. -/
theorem unguarded_calls_cycle :
    ReachableBy AnyCall (selfChildScene ℚ) ∧
    Relation.TransGen (IsChild (selfChildScene ℚ)) 0 0 ∧
    GetParent (selfChildScene ℚ) 0 = some 0 ∧
    (∀ (fuel : Nat) (dt : ℚ) (log : List Ptr),
      Update fuel 0 dt ⟨selfChildScene ℚ, log⟩ = none) ∧
    (∀ (ops : GlmOps ℚ) (fuel : Nat), GetWorldMatrix ops (selfChildScene ℚ) fuel 0 = none) := by
  refine ⟨?_, ?_, rfl, ?_, ?_⟩
  · exact ReachableBy.addChild (detachedScene ℚ) 0 0
      (ReachableBy.start _ detachedScene_detached) rfl rfl trivial
  · exact Relation.TransGen.single
      ⟨{ floorNode ℚ with m_parent := some 0, m_children := [0] }, rfl, by simp⟩
  · intro fuel dt log
    exact selfChild_Update_none dt fuel _ rfl
  · intro ops fuel
    induction fuel with
    | zero => rfl
    | succ f ih =>
      have h0 : selfChildScene ℚ 0 =
          some { floorNode ℚ with m_parent := some 0, m_children := [0] } := rfl
      rw [GetWorldMatrix]
      simp only [h0, lock, Option.isSome_some, if_true, ih]

/-- Witness of C22 as amended: attaching the marker to the floor is a guarded
call, so the floor and marker scene is a forest. -/
theorem guarded_calls_forest_floor_marker :
    ¬ Relation.TransGen (IsChild (floorMarkerScene ℝ)) 0 0 ∧
      ¬ Relation.TransGen (IsChild (floorMarkerScene ℝ)) 1 1 := by
  have hall := (guarded_calls_forest
    (GlmOps.mk Real.cos Real.sin (fun d => d * (Real.pi / 180)) fun x => (Real.sqrt x)⁻¹)
    (floorMarkerScene ℝ)
    (ReachableBy.addChild (detachedScene ℝ) 0 1
      (ReachableBy.start _ (by
        intro n o hn
        unfold detachedScene at hn
        split at hn
        · cases hn
          exact ⟨rfl, rfl⟩
        · split at hn
          · cases hn
            exact ⟨rfl, rfl⟩
          · cases hn))
      rfl rfl
      (by
        intro hd
        rcases Relation.ReflTransGen.cases_head hd with h | ⟨c, ⟨o, ho, hmem⟩, _⟩
        · exact absurd h (by decide)
        · have ho2 : detachedScene ℝ 1 = some (markerNode ℝ) := rfl
          rw [ho2] at ho
          cases ho
          simp [markerNode, Object3D.new, Object3D.SetPosition] at hmem))).1
  exact ⟨hall 0, hall 1⟩

end ForestScenes

/-! ### The one-argument Render and the world matrices -/

theorem RenderChildren_pair {R : Type}
    (r1 r2 : Ptr → Mat4 R → ShaderManager R → Option (ShaderManager R)) (M : Mat4 R) :
    ∀ (cs : List Ptr),
      (∀ c ∈ cs, ∀ s, ∃ s2, r1 c M s = some s2 ∧ r2 c M s = some s2) →
      ∀ s, ∃ s2, Object3D.RenderChildren r1 cs M s = some s2 ∧
        Object3D.RenderChildren r2 cs M s = some s2 := by
  intro cs
  induction cs with
  | nil => intro _ s; exact ⟨s, rfl, rfl⟩
  | cons c cs ih =>
    intro hr s
    obtain ⟨s1, h1, h2⟩ := hr c (List.mem_cons_self c cs) s
    obtain ⟨s2, h3, h4⟩ := ih (fun d hd => hr d (List.mem_cons_of_mem c hd)) s1
    refine ⟨s2, ?_, ?_⟩
    · rw [Object3D.RenderChildren, h1]
      exact h3
    · rw [Object3D.RenderChildren, h2]
      exact h4

section RenderWorldMatrices

variable {R : Type} [Field R]

open Object3D

theorem RenderParent_eq_RenderWorld (ops : GlmOps R) (h : Heap R) (wfuel : Nat) :
    ∀ (k f1 f2 : Nat), k ≤ f1 → k ≤ f2 → ∀ (n : Ptr) (j : Nat) (W Mp : Mat4 R)
      (o : Object3D R), WithinDepth h k n →
      (∀ m om, IsDescendant h n m → h m = some om → om.visible = true) →
      (∀ m c, IsDescendant h n m → IsChild h m c → GetParent h c = some m) →
      h n = some o → GetWorldMatrix ops h j n = some W → j + k ≤ wfuel + 1 →
      Mp * o.GetModelMatrix ops = W →
      ∀ s, ∃ s2, RenderParent ops h f1 n Mp s = some s2 ∧
        RenderWorld (GetWorldMatrix ops h wfuel) h f2 n s = some s2 := by
  intro k
  induction k with
  | zero => intro f1 f2 _ _ n j W Mp o hw; cases hw
  | succ k ih =>
    intro f1 f2 hf1 hf2 n j W Mp o hw hvis hpar hn hW hj hM s
    obtain ⟨a, rfl⟩ : ∃ a, f1 = a + 1 := ⟨f1 - 1, by omega⟩
    obtain ⟨b, rfl⟩ : ∃ b, f2 = b + 1 := ⟨f2 - 1, by omega⟩
    cases hw with
    | node _ _ o2 hn2 hc =>
      rw [hn] at hn2
      cases hn2
      have hv : o.visible = true := hvis n o Relation.ReflTransGen.refl hn
      have hWf : GetWorldMatrix ops h wfuel n = some W :=
        GetWorldMatrix_mono ops h j n W hW wfuel (by omega)
      rw [RenderParent, RenderWorld]
      simp only [hn, hv, hWf, hM, Bool.not_true, Bool.false_eq_true, if_false]
      apply RenderChildren_pair
      intro c hcm s1
      have hchild : IsChild h n c := ⟨o, hn, hcm⟩
      have hwc := hc c hcm
      obtain ⟨oc, hoc⟩ : ∃ oc, h c = some oc := by
        cases hwc with
        | node _ _ oc hoc _ => exact ⟨oc, hoc⟩
      exact ih a b (by omega) (by omega) c (j + 1) (W * oc.GetModelMatrix ops) W oc hwc
        (fun m om hd hm => hvis m om (Relation.ReflTransGen.head hchild hd) hm)
        (fun m c2 hd hmc => hpar m c2 (Relation.ReflTransGen.head hchild hd) hmc)
        hoc
        (GetWorldMatrix_child ops h j c n oc W hoc
          (hpar n c Relation.ReflTransGen.refl hchild) hW)
        (by omega) rfl s1

/-- C28: on a hierarchy of bounded depth in which every node of the subtree
of `root` is visible, `root` has no parent and every child's parent
back-reference is the node that lists it, `Render(sink)` on `root` returns
and leaves the sink exactly as the traversal that sets `model` to
`GetWorldMatrix(N)` for every node `N` of the subtree, and exactly as
`Render(sink, identity)`. -/
theorem Render_sets_world_matrices (ops : GlmOps R) (h : Heap R) (d fuel : Nat)
    (root : Ptr) (hf : d ≤ fuel) (hw : WithinDepth h d root)
    (hvis : ∀ m om, IsDescendant h root m → h m = some om → om.visible = true)
    (hroot : GetParent h root = none)
    (hpar : ∀ m c, IsDescendant h root m → IsChild h m c → GetParent h c = some m) :
    ∀ s, ∃ s2, Render ops h fuel root s = some s2 ∧
      RenderWorld (GetWorldMatrix ops h fuel) h fuel root s = some s2 ∧
      RenderParent ops h fuel root 1 s = some s2 := by
  intro s
  obtain ⟨o, hn⟩ : ∃ o, h root = some o := by
    cases hw with
    | node _ _ o hn _ => exact ⟨o, hn⟩
  obtain ⟨k, rfl⟩ : ∃ k, d = k + 1 := by
    cases hw with
    | node k _ _ _ _ => exact ⟨k, rfl⟩
  obtain ⟨f, rfl⟩ : ∃ f, fuel = f + 1 := ⟨fuel - 1, by omega⟩
  have hW1 : GetWorldMatrix ops h 1 root = some (o.GetModelMatrix ops) :=
    GetWorldMatrix_root ops h 0 root o hn hroot
  have hWf : GetWorldMatrix ops h (f + 1) root = some (o.GetModelMatrix ops) :=
    GetWorldMatrix_root ops h f root o hn hroot
  obtain ⟨s2, hP, hWd⟩ :=
    RenderParent_eq_RenderWorld ops h (f + 1) (k + 1) (f + 1) (f + 1) hf hf root 1
      (o.GetModelMatrix ops) 1 o hw hvis hpar hn hW1 (by omega) (one_mul _) s
  refine ⟨s2, ?_, hWd, hP⟩
  have hv : o.visible = true := hvis root o Relation.ReflTransGen.refl hn
  have hkids : ∀ c ∈ o.m_children, ∀ s1, ∃ s3,
      RenderParent ops h (f + 1) c (o.GetModelMatrix ops) s1 = some s3 ∧
      (fun c (_ : Mat4 R) s => RenderWorld (GetWorldMatrix ops h (f + 1)) h f c s) c
        (o.GetModelMatrix ops) s1 = some s3 := by
    intro c hcm s1
    have hchild : IsChild h root c := ⟨o, hn, hcm⟩
    have hwc : WithinDepth h k c := by
      cases hw with
      | node _ _ o2 hn2 hc =>
        rw [hn] at hn2
        cases hn2
        exact hc c hcm
    obtain ⟨oc, hoc⟩ : ∃ oc, h c = some oc := by
      cases hwc with
      | node _ _ oc hoc _ => exact ⟨oc, hoc⟩
    exact RenderParent_eq_RenderWorld ops h (f + 1) k (f + 1) f (by omega) (by omega) c 2
      (o.GetModelMatrix ops * oc.GetModelMatrix ops) (o.GetModelMatrix ops) oc hwc
      (fun m om hd hm => hvis m om (Relation.ReflTransGen.head hchild hd) hm)
      (fun m c2 hd hmc => hpar m c2 (Relation.ReflTransGen.head hchild hd) hmc)
      hoc
      (GetWorldMatrix_child ops h 1 c root oc _ hoc
        (hpar root c Relation.ReflTransGen.refl hchild) hW1)
      (by omega) rfl s1
  rw [RenderWorld] at hWd
  simp only [hn, hWf] at hWd
  rw [Render]
  simp only [hn, hv, hWf, Bool.not_true, Bool.false_eq_true, if_false]
  obtain ⟨s3, hA, hB⟩ := RenderChildren_pair (RenderParent ops h (f + 1))
    (fun c (_ : Mat4 R) s => RenderWorld (GetWorldMatrix ops h (f + 1)) h f c s)
    (o.GetModelMatrix ops) o.m_children hkids
    ((((((s.setMat4Value "model" (o.GetModelMatrix ops)).setVec3Value "material.ambient"
      (o.color.smul (1 / 10))).setVec3Value "material.diffuse" o.color).setVec3Value
      "material.specular" (o.color.smul (1 / 2))).setFloatValue "material.shininess"
      o.shininess).setBoolValue "useTexture" o.useTexture)
  rw [hA]
  rw [hB] at hWd
  exact hWd

end RenderWorldMatrices

/-! ### The expected number of spawned particles -/

section ExpectedEmission

open ParticleSystem MeasureTheory

theorem integral_const_on_Ioo (g : ℝ → ℝ) (a b k : ℝ) (hab : a ≤ b)
    (hg : ∀ u ∈ Set.Ioo a b, g u = k) :
    (∫ u in a..b, g u) = (b - a) * k ∧ IntervalIntegrable g volume a b := by
  constructor
  · rw [intervalIntegral.integral_of_le hab, integral_Ioc_eq_integral_Ioo,
      setIntegral_congr_fun measurableSet_Ioo (fun u hu => hg u hu),
      ← integral_Ioc_eq_integral_Ioo, ← intervalIntegral.integral_of_le hab,
      intervalIntegral.integral_const, smul_eq_mul]
  · rw [intervalIntegrable_iff_integrableOn_Ioo_of_le hab]
    have hc : IntegrableOn (fun _ : ℝ => k) (Set.Ioo a b) volume :=
      integrableOn_const.mpr (Or.inr (by simp))
    exact hc.congr_fun (fun u hu => (hg u hu).symm) measurableSet_Ioo

theorem integral_two_steps (g : ℝ → ℝ) (f c : ℝ) (h0 : 0 ≤ f) (h1 : f ≤ 1)
    (hlo : ∀ u ∈ Set.Ioo 0 f, g u = c + 1) (hhi : ∀ u ∈ Set.Ioo f 1, g u = c) :
    (∫ u in (0 : ℝ)..1, g u) = c + f := by
  obtain ⟨i1, n1⟩ := integral_const_on_Ioo g 0 f (c + 1) h0 hlo
  obtain ⟨i2, n2⟩ := integral_const_on_Ioo g f 1 c h1 hhi
  rw [← intervalIntegral.integral_add_adjacent_intervals n1 n2, i1, i2]
  ring

theorem spawnedFor_eq (ps : ParticleSystem ℝ) (dt : ℝ)
    (hnn : 0 ≤ ps.m_emissionRate * dt) (u : ℝ) (h0 : 0 ≤ u) (h1 : u < 1) :
    spawnedFor ps dt u =
      ⌊ps.m_emissionRate * dt⌋₊ + (if u < Int.fract (ps.m_emissionRate * dt) then 1 else 0) := by
  have hu : 0 ≤ u ∧ u < 1 := ⟨h0, h1⟩
  have hs : spawnedFor ps dt u = spawnCount (ps.m_emissionRate * dt) u := by
    unfold spawnedFor
    rw [dif_pos hu]
    exact toNat_particlesToEmit (withDraw ps ⟨u, hu⟩) dt hnn
  rw [hs]
  unfold spawnCount
  by_cases hlt : u < Int.fract (ps.m_emissionRate * dt)
  · rw [if_pos hlt, if_pos hlt]
  · rw [if_neg hlt, if_neg hlt, Nat.add_zero]

/-- C24: on an active engine with `m_emissionRate * dt ≥ 0`, the number of
particles one `Update` spawns when the draw is `u` is the floor of
`m_emissionRate * dt`, plus one exactly for the draws `u < frac`; its mean
over the uniform draw on `[0, 1)` is `m_emissionRate * dt`, and `n` times that
mean is `m_emissionRate * (n * dt)`. -/
theorem expected_spawn_count (ops : GlmOps ℝ) (ps : ParticleSystem ℝ) (dt : ℝ)
    (hact : ps.m_active = true) (hnn : 0 ≤ ps.m_emissionRate * dt) :
    (∀ (u : ℝ) (hu : 0 ≤ u ∧ u < 1), ∃ fresh : List (Particle ℝ),
      fresh.length = spawnedFor ps dt u ∧
      (Update ops (withDraw ps ⟨u, hu⟩) dt).m_particles =
        ((ps.m_particles ++ fresh).map fun p => UpdateParticle p dt).filter
          fun p => !decide (p.life ≤ 0)) ∧
    (∀ u : ℝ, 0 ≤ u → u < 1 →
      spawnedFor ps dt u =
        ⌊ps.m_emissionRate * dt⌋₊ +
          (if u < Int.fract (ps.m_emissionRate * dt) then 1 else 0)) ∧
    (∫ u in (0 : ℝ)..1, (spawnedFor ps dt u : ℝ)) = ps.m_emissionRate * dt ∧
    (∀ n : Nat, (n : ℝ) * (∫ u in (0 : ℝ)..1, (spawnedFor ps dt u : ℝ)) =
      ps.m_emissionRate * (n * dt)) := by
  have hint : (∫ u in (0 : ℝ)..1, (spawnedFor ps dt u : ℝ)) = ps.m_emissionRate * dt := by
    rw [integral_two_steps (fun u => (spawnedFor ps dt u : ℝ))
      (Int.fract (ps.m_emissionRate * dt)) (⌊ps.m_emissionRate * dt⌋₊ : ℝ)
      (Int.fract_nonneg _) (Int.fract_lt_one _).le]
    · rw [natCast_floor_eq_intCast_floor hnn]
      exact Int.floor_add_fract _
    · intro u hu
      have h1 : u < 1 := lt_trans hu.2 (Int.fract_lt_one _)
      show ((spawnedFor ps dt u : Nat) : ℝ) = _
      rw [spawnedFor_eq ps dt hnn u hu.1.le h1, if_pos hu.2]
      push_cast
      ring
    · intro u hu
      have h0 : 0 ≤ u := le_trans (Int.fract_nonneg _) hu.1.le
      show ((spawnedFor ps dt u : Nat) : ℝ) = _
      rw [spawnedFor_eq ps dt hnn u h0 hu.2, if_neg (not_lt.mpr hu.1.le)]
      simp
  refine ⟨?_, fun u h0 h1 => spawnedFor_eq ps dt hnn u h0 h1, hint, ?_⟩
  · intro u hu
    obtain ⟨fresh, hlen, _, hpart, _⟩ :=
      Update_active_particles ops (withDraw ps ⟨u, hu⟩) dt hact
    refine ⟨fresh, ?_, hpart⟩
    rw [hlen]
    unfold spawnedFor
    rw [dif_pos hu]
  · intro n
    rw [hint]
    ring

end ExpectedEmission

/-! ### The later theorems on concrete inputs -/

section LaterScenes

open Object3D ParticleSystem

theorem floorMarkerScene_cases {R : Type} [Field R] (n : Ptr) (o : Object3D R)
    (hn : floorMarkerScene R n = some o) :
    (n = 0 ∧ o = { floorNode R with m_children := [1] }) ∨
      (n = 1 ∧ o = { markerNode R with m_parent := some 0 }) := by
  by_cases h0 : n = 0
  · subst h0
    rw [floorMarkerScene_floor] at hn
    cases hn
    exact Or.inl ⟨rfl, rfl⟩
  · by_cases h1 : n = 1
    · subst h1
      rw [floorMarkerScene_marker] at hn
      cases hn
      exact Or.inr ⟨rfl, rfl⟩
    · simp [floorMarkerScene, AddChild, SetParent, modifyAt, detachedScene, h0, h1] at hn

/-- Witness of C23: in the twin scene node 1 is a child of node 0; after
`AddChild` on node 2 it is a child of both and its parent is node 2. -/
theorem AddChild_second_owner_twins :
    (∃ n1, AddChild (twinScene ℚ) 2 (some 1) 0 = some n1 ∧ 1 ∈ n1.m_children) ∧
    (∃ n2, AddChild (twinScene ℚ) 2 (some 1) 2 = some n2 ∧ 1 ∈ n2.m_children) ∧
    GetParent (AddChild (twinScene ℚ) 2 (some 1)) 1 = some 2 :=
  AddChild_second_owner (twinScene ℚ) 0 2 1
    { (Object3D.new "parent" : Object3D ℚ) with m_children := [1, 2, 3] }
    { (Object3D.new "other" : Object3D ℚ) with m_children := [4], m_parent := some 0 }
    { (Object3D.new "twin" : Object3D ℚ) with m_parent := some 0 }
    rfl (by simp) rfl rfl

/-- Witness of C24: for a started fresh engine (rate 10) and `dt = 1/4` the
mean number of spawned particles is 2.5. -/
theorem expected_spawn_count_started :
    (∫ u in (0 : ℝ)..1,
        (spawnedFor (ParticleSystem.new (halfDraws ℝ)).Start (1 / 4) u : ℝ)) =
      (ParticleSystem.new (halfDraws ℝ)).Start.m_emissionRate * (1 / 4) :=
  (expected_spawn_count
    (GlmOps.mk Real.cos Real.sin (fun d => d * (Real.pi / 180)) fun x => (Real.sqrt x)⁻¹)
    (ParticleSystem.new (halfDraws ℝ)).Start (1 / 4) rfl
    (by
      show (0 : ℝ) ≤ 10 * (1 / 4)
      norm_num)).2.2.1

/-- C26 fails as stated: with life range [1,1] the particle created has, after
a step of 0.99, the alpha 1/3000, which is far from 0.99. -/
theorem alpha_at_elapsed_099_not_099 :
    ((CreateParticle ((ParticleSystem.new (halfDraws ℚ)).SetParticleLife 1 1)
        ⟨0, 0, 0⟩).m_particles.map fun p => (UpdateParticle p (99 / 100)).color.a) =
      [1 / 3000] ∧
    |(1 / 3000 : ℚ) - 99 / 100| > 49 / 50 := by
  constructor
  · obtain ⟨⟨p, hp, _, hlife, u, hu⟩, _⟩ :=
      CreateParticle_fresh ((ParticleSystem.new (halfDraws ℚ)).SetParticleLife 1 1) ⟨0, 0, 0⟩
    have hm : p.maxLife = 1 := by
      rw [hu]
      show (1 : ℚ) + u.val * (1 - 1) = 1
      ring
    rw [hp]
    simp only [ParticleSystem.new, SetParticleLife, List.nil_append, List.map_cons,
      List.map_nil, UpdateParticle_alpha, hlife, hm]
    norm_num [fadeAlpha]
  · rw [abs_sub_comm, abs_of_pos (by norm_num)]
    norm_num

/-- Witness of C26 as amended: the engine with life range [1,1] and one step
of 0.99. -/
theorem alpha_at_elapsed_099_one_step :
    ∃ p : Particle ℚ,
      (CreateParticle ((ParticleSystem.new (halfDraws ℚ)).SetParticleLife 1 1)
        ⟨0, 0, 0⟩).m_particles =
        ((ParticleSystem.new (halfDraws ℚ)).SetParticleLife 1 1).m_particles ++ [p] ∧
      p.maxLife = 1 ∧ p.life = 1 ∧
      ([99 / 100].foldl UpdateParticle p).color.a = 1 / 100 * (1 / 100 / (3 / 10)) :=
  alpha_at_elapsed_099 ((ParticleSystem.new (halfDraws ℚ)).SetParticleLife 1 1) ⟨0, 0, 0⟩
    [99 / 100] rfl rfl (by simp) (by simp)

/-- Witness of C27: a fresh engine, started, with two particles emitted. -/
theorem life_within_bounds_emitted :
    ((ParticleSystem.new (halfDraws ℝ)).Start.Emit ⟨0, 0, 0⟩ 2).m_particles.length = 2 ∧
      ∀ p ∈ ((ParticleSystem.new (halfDraws ℝ)).Start.Emit ⟨0, 0, 0⟩ 2).m_particles,
        0 ≤ p.life ∧ p.life ≤ p.maxLife :=
  ⟨rfl, (life_within_bounds
    (GlmOps.mk Real.cos Real.sin (fun d => d * (Real.pi / 180)) fun x => (Real.sqrt x)⁻¹)
    (ParticleSystem.new (halfDraws ℝ)) _
    (by
      intro p hp
      simp [ParticleSystem.new] at hp)
    (by
      show (0 : ℝ) < 1
      norm_num)
    (by
      show (1 : ℝ) ≤ 3
      norm_num)
    (Run.emit _ ⟨0, 0, 0⟩ 2 (Run.start _ Run.init))).1⟩

/-- Witness of C28: on the floor and marker scene the one-argument `Render`
on the floor leaves the sink as `Render(sink, identity)` does. -/
theorem Render_sets_world_matrices_floor :
    ∃ s2,
      Render
          (GlmOps.mk Real.cos Real.sin (fun d => d * (Real.pi / 180)) fun x => (Real.sqrt x)⁻¹)
          (floorMarkerScene ℝ) 2 0 [] = some s2 ∧
      RenderParent
          (GlmOps.mk Real.cos Real.sin (fun d => d * (Real.pi / 180)) fun x => (Real.sqrt x)⁻¹)
          (floorMarkerScene ℝ) 2 0 1 [] = some s2 := by
  obtain ⟨s2, h1, _, h3⟩ :=
    Render_sets_world_matrices
      (GlmOps.mk Real.cos Real.sin (fun d => d * (Real.pi / 180)) fun x => (Real.sqrt x)⁻¹)
      (floorMarkerScene ℝ) 2 2 0 (Nat.le_refl 2)
      (WithinDepth.node 1 0 { floorNode ℝ with m_children := [1] } rfl (fun c hc => by
        have hc1 : c = 1 := by simpa using hc
        rw [hc1]
        exact WithinDepth.node 0 1 { markerNode ℝ with m_parent := some 0 } rfl
          (fun c2 hc2 => by simp [markerNode, Object3D.new, Object3D.SetPosition] at hc2)))
      (by
        intro m om _ hm
        rcases floorMarkerScene_cases m om hm with ⟨_, rfl⟩ | ⟨_, rfl⟩ <;> rfl)
      rfl
      (by
        intro m c _ hmc
        obtain ⟨om, hm, hmem⟩ := hmc
        rcases floorMarkerScene_cases m om hm with ⟨rfl, rfl⟩ | ⟨rfl, rfl⟩
        · have hc1 : c = 1 := by simpa using hmem
          rw [hc1]
          rfl
        · simp [markerNode, Object3D.new, Object3D.SetPosition] at hmem)
      []
  exact ⟨s2, h1, h3⟩

/-- Witness of C30: a started fresh engine (life range [1,3], rate 10) updated
with `dt = 5` ends the frame without particles. -/
theorem Update_prunes_spawned_started :
    (Update
        (GlmOps.mk Real.cos Real.sin (fun d => d * (Real.pi / 180)) fun x => (Real.sqrt x)⁻¹)
        (ParticleSystem.new (halfDraws ℝ)).Start 5).m_particles = [] :=
  (Update_prunes_spawned _ (ParticleSystem.new (halfDraws ℝ)).Start 5 rfl
    (by
      show (1 : ℝ) ≤ 3
      norm_num)
    (by
      show (3 : ℝ) ≤ 5
      norm_num)
    (by
      intro p hp
      simp [ParticleSystem.new, Start] at hp)).1

end LaterScenes

end SceneGraph
